import Mathlib

set_option maxRecDepth 4000

/-!
Verification development for the ChatGPT_Conversations_To_Markdown repository.

The two source files are embedded shallowly:
  * `src/chatgpt_json_to_markdown.py`  (extraction / rendering pipeline)
  * `src/obsidian_chatgpt_organizer.py` (segmenter / tagger pipeline)

Python strings are modelled as `List Char` (`Str`), Python values as the
inductive `PyVal` (floats are collapsed into `Int`; this development only
reasons about integral timestamps).  External collaborators (the `dateutil`
parser, `datetime.fromtimestamp(...).year`, `strftime`, the NLTK tokenizer
and stopword list) are passed in as explicit function parameters, so every
theorem quantifies over them.  A raised-and-caught Python exception is
modelled with `Except Unit`.
-/

abbrev Str := List Char

/-- Python `c.isspace()` for the ASCII whitespace characters used by
`str.strip` / `str.split`. -/
def pyIsSpaceChar (c : Char) : Bool :=
  c = ' ' || c = '\t' || c = '\n' || c = '\x0d' || c = '\x0b' || c = '\x0c'

/-- Python `c.isalnum()` (restricted to ASCII letters and digits). -/
def pyIsAlnumChar (c : Char) : Bool :=
  c.isAlpha || c.isDigit

/-- Python `s.isalnum()`: non-empty and every character alphanumeric. -/
def pyIsAlnum (s : Str) : Bool :=
  !s.isEmpty && s.all pyIsAlnumChar

/-- `strStarts t p` is true when `p` is an initial run of `t`. -/
def strStarts : Str → Str → Bool
  | _, [] => true
  | [], _ :: _ => false
  | c :: t, p :: ps => c = p && strStarts t ps

/-- Scan the suffix `t` (which sits at absolute index `j`) for the first
occurrence of `sub`; returns the absolute index. -/
def findSubAux (sub : Str) : Str → Nat → Option Nat
  | [], j => if strStarts [] sub then some j else Option.none
  | c :: t, j => if strStarts (c :: t) sub then some j else findSubAux sub t (j + 1)

/-- First index `≥ i` at which `sub` occurs in `s` (`Nat` form). -/
def strFindFrom (s sub : Str) (i : Nat) : Option Nat :=
  findSubAux sub (s.drop i) i

/-- Python `sub in s` (substring containment). -/
def strContains (s sub : Str) : Bool :=
  (strFindFrom s sub 0).isSome

/-- Normalize a Python slice index to the range `[0, len]`. -/
def clampIdx (len : Nat) (i : Int) : Nat :=
  if i < 0 then (len + i).toNat else min i.toNat len

/-- Python `s.find(sub, start)`: `-1` when absent (also when the normalized
start lies beyond the end of the string). -/
def pyFind (s sub : Str) (start : Int) : Int :=
  let st : Int := if start < 0 then max 0 ((s.length : Int) + start) else start
  if (s.length : Int) < st then -1
  else
    match findSubAux sub (s.drop st.toNat) st.toNat with
    | some j => (j : Int)
    | Option.none => -1

/-- Scan downward from `j` for the greatest index at which `sub` occurs. -/
def strRfindAux (s sub : Str) : Nat → Option Nat
  | 0 => if strStarts s sub then some 0 else Option.none
  | j + 1 =>
    if strStarts (s.drop (j + 1)) sub then some (j + 1) else strRfindAux s sub j

/-- Python `s.rfind(sub, 0, e)`: greatest `j` with an occurrence of `sub`
ending at or before position `e`; `-1` when there is none. -/
def pyRfindEnd (s sub : Str) (e : Int) : Int :=
  if sub.length ≤ clampIdx s.length e then
    match strRfindAux s sub (clampIdx s.length e - sub.length) with
    | some j => (j : Int)
    | Option.none => -1
  else -1

/-- Python `s[a:b]`. -/
def pySlice (s : Str) (a b : Int) : Str :=
  (s.take (clampIdx s.length b)).drop (clampIdx s.length a)

/-- Python `s[a:]`. -/
def pySliceFrom (s : Str) (a : Int) : Str :=
  s.drop (clampIdx s.length a)

/-- Python `s.lower()` (ASCII). -/
def strLower (s : Str) : Str := s.map Char.toLower

/-- Drop leading whitespace. -/
def dropLeadingWs : Str → Str
  | [] => []
  | c :: t => if pyIsSpaceChar c then dropLeadingWs t else c :: t

/-- Python `s.rstrip()`. -/
def strRstrip (s : Str) : Str := (dropLeadingWs s.reverse).reverse

/-- Python `s.strip()`. -/
def strStrip (s : Str) : Str := strRstrip (dropLeadingWs s)

/-- The part of `s` before the first newline: `s.split('\n')[0]`. -/
def firstLineOf : Str → Str
  | [] => []
  | c :: t => if c = '\n' then [] else c :: firstLineOf t

/-- Helper for Python's no-argument `str.split`. -/
def pySplitWsAux : Str → Str → List Str
  | [], cur => if cur.isEmpty then [] else [cur.reverse]
  | c :: t, cur =>
    if pyIsSpaceChar c then
      if cur.isEmpty then pySplitWsAux t [] else cur.reverse :: pySplitWsAux t []
    else pySplitWsAux t (c :: cur)

/-- Python `s.split()` — split on whitespace runs, dropping empties. -/
def pySplitWs (s : Str) : List Str := pySplitWsAux s []

/-- Python `sep.join(pieces)`. -/
def joinSep (sep : Str) : List Str → Str
  | [] => []
  | [c] => c
  | c :: rest => c ++ sep ++ joinSep sep rest

/-- Concatenation of a list of strings (`"".join`). -/
def strConcat : List Str → Str
  | [] => []
  | s :: rest => s ++ strConcat rest

/-- Lexicographic comparison of strings by code point (Python `<`). -/
def strLt : Str → Str → Bool
  | [], [] => false
  | [], _ :: _ => true
  | _ :: _, [] => false
  | a :: s, b :: t => if a = b then strLt s t else decide (a < b)

/-! ## Python values -/

/-- A JSON-ish Python value.  Numbers are modelled as `Int` (the code under
analysis only compares and thresholds timestamps, so float-ness is
immaterial to the claims). -/
inductive PyVal where
  | none
  | bool (b : Bool)
  | int (n : Int)
  | str (s : Str)
  | list (xs : List PyVal)
  | dict (xs : List (Str × PyVal))
deriving Repr

instance : Inhabited PyVal := ⟨PyVal.none⟩

/-- Python truthiness. -/
def PyVal.truthy : PyVal → Bool
  | .none => false
  | .bool b => b
  | .int n => decide (n ≠ 0)
  | .str s => !s.isEmpty
  | .list xs => !xs.isEmpty
  | .dict xs => !xs.isEmpty

/-- Dictionary lookup (first binding wins, as in a Python dict whose keys
are unique). -/
def dget : List (Str × PyVal) → Str → Option PyVal
  | [], _ => Option.none
  | (k, v) :: rest, key => if k = key then some v else dget rest key

/-- Python `d.get(key, default)`. -/
def pyGetD (d : List (Str × PyVal)) (key : Str) (dflt : PyVal) : PyVal :=
  (dget d key).getD dflt

/-- Python `d[key] = v`: replace in place, else append (insertion order). -/
def dset : List (Str × PyVal) → Str → PyVal → List (Str × PyVal)
  | [], key, v => [(key, v)]
  | (k, w) :: rest, key, v =>
    if k = key then (key, v) :: rest else (k, w) :: dset rest key v

/-- Numeric view: Python `isinstance(v, (int, float))` (`bool` is an `int`
subtype in Python). -/
def pyAsNum : PyVal → Option Int
  | .int n => some n
  | .bool b => some (if b then 1 else 0)
  | _ => Option.none

/-- Python `v == "lit"` where the right operand is a string literal. -/
def pyEqStr (v : PyVal) (s : Str) : Bool :=
  match v with
  | .str t => t = s
  | _ => false

/-- Python iteration (`for x in v`): strings yield 1-character strings,
dicts yield their keys, other scalars raise `TypeError`. -/
def pyIter : PyVal → Except Unit (List PyVal)
  | .str s => .ok (s.map (fun c => .str [c]))
  | .list xs => .ok xs
  | .dict d => .ok (d.map (fun kv => .str kv.1))
  | _ => .error ()

/-- `"sep".join(vals)` raises `TypeError` when an element is not a string. -/
def getStrs : List PyVal → Except Unit (List Str)
  | [] => .ok []
  | .str s :: rest => do .ok (s :: (← getStrs rest))
  | _ => .error ()

/-- Decimal rendering of an integer (Python `str` on an `int`). -/
def intToStr (n : Int) : Str :=
  if n < 0 then '-' :: Nat.toDigits 10 n.natAbs else Nat.toDigits 10 n.toNat

mutual
/-- Python `repr` (simplified: strings are wrapped in single quotes without
escaping; floats do not exist in this model). -/
def pyRepr : PyVal → Str
  | .none => "None".data
  | .bool true => "True".data
  | .bool false => "False".data
  | .int n => intToStr n
  | .str s => Char.ofNat 39 :: s ++ [Char.ofNat 39]
  | .list xs => '[' :: strConcat (List.intersperse ", ".data (pyReprList xs)) ++ [']']
  | .dict xs =>
    Char.ofNat 123 :: strConcat (List.intersperse ", ".data (pyReprDict xs)) ++ [Char.ofNat 125]

def pyReprList : List PyVal → List Str
  | [] => []
  | v :: vs => pyRepr v :: pyReprList vs

def pyReprDict : List (Str × PyVal) → List Str
  | [] => []
  | (k, v) :: vs =>
    ((Char.ofNat 39 :: k ++ [Char.ofNat 39]) ++ ": ".data ++ pyRepr v) :: pyReprDict vs
end

/-- Python `str(v)`. -/
def pyStr (v : PyVal) : Str :=
  match v with
  | .str s => s
  | _ => pyRepr v

/-! ## Pipeline 1: `chatgpt_json_to_markdown.py` -/

/-- External collaborators of pipeline 1.  `parseDate` models
`dateutil.parser.parse(s).timestamp()` (`Option.none` when parsing raises or
`dateutil` is missing); `yearOf` models `datetime.fromtimestamp(t).year`;
`fmtDate` models `strftime(config['date_format'])` (`Option.none` when it
raises); `fmtDateTime` models `strftime("%Y-%m-%d %H:%M:%S")`. -/
structure PyExt where
  parseDate : Str → Option Int
  yearOf : Int → Int
  fmtDate : Int → Option Str
  fmtDateTime : Int → Str

/-- The configuration surface consumed by `process_conversations`. -/
structure Config where
  userName : Str
  assistantName : Str
  messageSeparator : Str
  skipEmptyMessages : Bool
  filterBeforeYear : Int
  enableSummarization : Bool

/-- Outcome of processing one entry: a written file (name, content) or a
skip.  Exceptions caught by the per-entry handler also count as `skipped`. -/
inductive Outcome where
  | skipped
  | skippedOld
  | written (fileName : Str) (content : Str)
deriving DecidableEq, Repr

def Outcome.isWritten : Outcome → Bool
  | .written _ _ => true
  | _ => false

/-- `extract_messages_safely`, mapping branch: collect the `message` field
of every dict node whose `message` is truthy (`if message:`). -/
def collectRaw : List (Str × PyVal) → List PyVal
  | [] => []
  | (_, item) :: rest =>
    match item with
    | .dict idict =>
      match dget idict ("message".data) with
      | some msg => if msg.truthy then msg :: collectRaw rest else collectRaw rest
      | Option.none => collectRaw rest
    | _ => collectRaw rest

/-- `extract_messages_safely(entry)`.  A non-dict truthy `mapping` value
makes `mapping.items()` raise (`AttributeError`), a non-iterable `messages`
value makes the list comprehension raise (`TypeError`). -/
def extract_messages_safely (entry : PyVal) : Except Unit (List PyVal) :=
  match entry with
  | .dict d =>
    if (dget d ("mapping".data)).isSome then
      let mapping := pyGetD d ("mapping".data) (.dict [])
      if !mapping.truthy then .ok []
      else
        match mapping with
        | .dict m => .ok (collectRaw m)
        | _ => .error ()
    else if (dget d ("messages".data)).isSome then do
      let msgs := pyGetD d ("messages".data) (.list [])
      let items ← pyIter msgs
      .ok (items.filter PyVal.truthy)
    else .ok []
  | _ => .ok []

/-- The `parts` branch of `_get_message_content`:
`"\n".join(part["text"] if isinstance(part, dict) and "text" in part
else str(part) for part in parts if part)`. -/
def partsPieces (items : List PyVal) : List PyVal :=
  (items.filter PyVal.truthy).map fun part =>
    match part with
    | .dict pd =>
      match dget pd ("text".data) with
      | some tv => tv
      | Option.none => .str (pyStr part)
    | _ => .str (pyStr part)

/-- Body of `_get_message_content` (everything inside the `try`).  The
result is a `PyVal` because several branches (`content["text"]`,
`content["result"]`, `content.get("user_profile", …)`) return the raw field
value, which need not be a string. -/
def getMessageContentE (message : PyVal) : Except Unit PyVal :=
  match message with
  | .dict md =>
    if !(PyVal.dict md).truthy then .ok (.str []) else
    match dget md ("content".data) with
    | Option.none =>
      match dget md ("text".data) with
      | some v => .ok (.str (pyStr v))
      | Option.none =>
        match dget md ("value".data) with
        | some v => .ok (.str (pyStr v))
        | Option.none =>
          match dget md ("body".data) with
          | some v => .ok (.str (pyStr v))
          | Option.none => .ok (.str [])
    | some content =>
      match content with
      | .str s => .ok (.str s)
      | .dict cd =>
        match dget cd ("parts".data) with
        | some parts => do
          let items ← pyIter parts
          let strs ← getStrs (partsPieces items)
          .ok (.str (joinSep ['\n'] strs))
        | Option.none =>
          match dget cd ("text".data) with
          | some tv => .ok tv
          | Option.none =>
            match dget cd ("result".data) with
            | some rv => .ok rv
            | Option.none =>
              match dget cd ("content_type".data) with
              | some ctv =>
                if pyEqStr ctv ("user_editable_context".data) then
                  .ok (pyGetD cd ("user_profile".data)
                    (.str ("Context information (no details available)".data)))
                else .ok (.str (("Content of type: ".data) ++ pyStr ctv))
              | Option.none =>
                let textFields := cd.filterMap fun kv =>
                  match kv.2 with
                  | .str s => if !s.isEmpty then some s else Option.none
                  | _ => Option.none
                if !textFields.isEmpty then .ok (.str (joinSep ['\n'] textFields))
                else .ok (.str ("[Message content in unknown format]".data))
      | .list xs => .ok (.str (joinSep ['\n'] ((xs.filter PyVal.truthy).map pyStr)))
      | other => .ok (.str (pyStr other))
  | _ => .ok (.str [])

def contentErrPlaceholder : Str := "[Content extraction error]".data

/-- `_get_message_content`: the `except` clause turns any raised exception
into the fixed placeholder string. -/
def getMessageContent (m : PyVal) : PyVal :=
  match getMessageContentE m with
  | .ok v => v
  | .error _ => .str contentErrPlaceholder

/-- The alternate-field step of `get_create_time_safely`: numeric positive
values are returned, strings are handed to the parser, anything else falls
through. -/
def tryAltField (parseDate : Str → Option Int) (v : PyVal) : Option Int :=
  match v with
  | .str s => parseDate s
  | _ =>
    match pyAsNum v with
    | some n => if 0 < n then some n else Option.none
    | Option.none => Option.none

/-- `get_create_time_safely(message)`. -/
def get_create_time_safely (parseDate : Str → Option Int) (m : PyVal) : Option Int :=
  match m with
  | .dict d =>
    let fromCreate : Option Int :=
      match dget d ("create_time".data) with
      | some v =>
        match pyAsNum v with
        | some n => if 0 < n then some n else Option.none
        | Option.none => Option.none
      | Option.none => Option.none
    match fromCreate with
    | some t => some t
    | Option.none =>
      let tryF : Str → Option Int := fun fld =>
        match dget d fld with
        | some v => tryAltField parseDate v
        | Option.none => Option.none
      match tryF ("timestamp".data) with
      | some t => some t
      | Option.none =>
        match tryF ("time".data) with
        | some t => some t
        | Option.none =>
          match tryF ("created_at".data) with
          | some t => some t
          | Option.none => tryF ("date".data)
  | _ => Option.none

/-- `_get_title(title, first_message)`.  A truthy non-string title makes
`title.strip()` raise; a truthy non-string flattened content makes
`content.split('\n')` raise. -/
def getTitle (title : PyVal) (firstMessage : Option PyVal) : Except Unit Str :=
  let synth : Except Unit Str :=
    match firstMessage with
    | some fm =>
      if fm.truthy && (match fm with | .dict _ => true | _ => false) then
        let c := getMessageContent fm
        if c.truthy then
          match c with
          | .str s =>
            let firstLine := (firstLineOf s).take 50
            .ok (if 3 < firstLine.length then firstLine else "Untitled Conversation".data)
          | _ => .error ()
        else .ok ("Untitled Conversation".data)
      else .ok ("Untitled Conversation".data)
    | Option.none => .ok ("Untitled Conversation".data)
  if !title.truthy then synth
  else
    match title with
    | .str s => if strStrip s = [] then synth else .ok s
    | _ => .error ()

/-- Author normalization inside `process_conversations`:
`if "author" not in message or not isinstance(message.get("author"), dict):
message["author"] = {"role": "unknown"}`. -/
def normalizeMessage (m : List (Str × PyVal)) : PyVal :=
  match dget m ("author".data) with
  | some (.dict _) => .dict m
  | _ => .dict (dset m ("author".data) (.dict [("role".data, .str ("unknown".data))]))

/-- The inline message-collection loop of `process_conversations`
(lines 268–285): keep only dict-valued `message` fields, normalizing the
author in place. -/
def collectMessages : List (Str × PyVal) → List PyVal
  | [] => []
  | (_, item) :: rest =>
    match item with
    | .dict idict =>
      match dget idict ("message".data) with
      | some (.dict md) => normalizeMessage md :: collectMessages rest
      | _ => collectMessages rest
    | _ => collectMessages rest

/-- The sort key `lambda x: x.get("create_time", 0) or 0`. -/
def msgKey (m : PyVal) : PyVal :=
  match m with
  | .dict d =>
    match dget d ("create_time".data) with
    | some v => if v.truthy then v else .int 0
    | Option.none => .int 0
  | _ => .int 0

/-- Python `<` between sort keys; comparing a string with a number raises
`TypeError` (list/tuple keys cannot arise from `msgKey` on dict messages,
whose keys are field values compared against `int 0`, and are also modelled
as raising). -/
def pyLtE (a b : PyVal) : Except Unit Bool :=
  match pyAsNum a, pyAsNum b with
  | some x, some y => .ok (decide (x < y))
  | _, _ =>
    match a, b with
    | .str s, .str t => .ok (strLt s t)
    | _, _ => .error ()

/-- Stable insertion of `m` into the already-sorted `acc`: `m` goes after
every element whose key is not greater, which is exactly the tie-breaking
of Python's stable `list.sort`. -/
def insertSorted (m : PyVal) : List PyVal → Except Unit (List PyVal)
  | [] => .ok [m]
  | y :: ys =>
    match pyLtE (msgKey m) (msgKey y) with
    | .error e => .error e
    | .ok true => .ok (m :: y :: ys)
    | .ok false =>
      match insertSorted m ys with
      | .error e => .error e
      | .ok r => .ok (y :: r)

def sortGo : List PyVal → List PyVal → Except Unit (List PyVal)
  | [], acc => .ok acc
  | m :: rest, acc =>
    match insertSorted m acc with
    | .error e => .error e
    | .ok acc2 => sortGo rest acc2

/-- `messages.sort(key=lambda x: x.get("create_time", 0) or 0)` — a stable
sort; equivalent to left-to-right stable insertion.  An incomparable pair
of keys models Python's `TypeError`. -/
def sortMessages (ms : List PyVal) : Except Unit (List PyVal) :=
  sortGo ms []

/-- Lines 240–251: `entry.get("create_time")`, with string values handed to
the dateutil parser (`None` on failure). -/
def resolveConvTime (parseDate : Str → Option Int) (v : Option PyVal) : PyVal :=
  match v with
  | Option.none => .none
  | some (.str s) =>
    match parseDate s with
    | some t => .int t
    | Option.none => .none
  | some w => w

/-- The recurring guard `v and isinstance(v, (int, float)) and v > 0`,
returning the validated timestamp. -/
def tsOf (v : PyVal) : Option Int :=
  match pyAsNum v with
  | some t => if v.truthy && decide (0 < t) then some t else Option.none
  | Option.none => Option.none

/-- `if <valid timestamp> and year < filter_before_year` (used twice, at
lines 254–260 and 307–316). -/
def skipOldCheck (ext : PyExt) (cfg : Config) (v : PyVal) : Bool :=
  match tsOf v with
  | some t => decide (ext.yearOf t < cfg.filterBeforeYear)
  | Option.none => false

/-- Lines 302–304: `create_time = conversation_create_time; if not
create_time or create_time <= 0: create_time = message_create_time`.
`create_time <= 0` raises on a truthy non-numeric value. -/
def finalCreateTime (cct : PyVal) (mct : Option Int) : Except Unit PyVal :=
  let fallback : PyVal := match mct with | some t => .int t | Option.none => .none
  if !cct.truthy then .ok fallback
  else
    match pyAsNum cct with
    | some n => .ok (if n ≤ 0 then fallback else cct)
    | Option.none => .error ()

/-- Body of the per-message `try` of lines 364–375. -/
def renderMessageE (cfg : Config) (m : PyVal) : Except Unit Str :=
  match m with
  | .dict md =>
    let author := pyGetD md ("author".data) (.dict [])
    match author with
    | .dict ad => do
      let role := pyGetD ad ("role".data) (.str ("unknown".data))
      let msgContent := getMessageContent m
      let keep ←
        if !cfg.skipEmptyMessages then Except.ok true
        else
          match msgContent with
          | .str s => Except.ok (!(strStrip s).isEmpty)
          | _ => Except.error ()
      if keep then
        let authorName := if pyEqStr role ("user".data) then cfg.userName else cfg.assistantName
        Except.ok ("**".data ++ authorName ++ "**: ".data ++ pyStr msgContent ++
          cfg.messageSeparator)
      else Except.ok []
    | _ => .error ()
  | _ => .error ()

/-- One message's contribution to the document; an exception inside the
loop body just skips that message (`except ...: continue`). -/
def renderMessage (cfg : Config) (m : PyVal) : Str :=
  match renderMessageE cfg m with
  | .ok s => s
  | .error _ => []

def renderedMessages (cfg : Config) (ms : List PyVal) : Str :=
  strConcat (ms.map (renderMessage cfg))

/-- Lines 325–331: the optional `date_str` (empty on absence or a
formatting error). -/
def mkDateStr (ext : PyExt) (createTime : PyVal) : Str :=
  match tsOf createTime with
  | some t => (ext.fmtDate t).getD []
  | Option.none => []

/-- Line 334: keep alphanumerics, space, underscore, hyphen; then
`rstrip`. -/
def sanitizeTitle (t : Str) : Str :=
  strRstrip (t.filter fun c => pyIsAlnumChar c || c = ' ' || c = '_' || c = '-')

/-- Lines 335–338: the output file name. -/
def mkFileName (dateStr : Str) (inferredTitle : Str) : Str :=
  let s := (sanitizeTitle inferredTitle).map fun c => if c = ' ' then '_' else c
  if !dateStr.isEmpty then dateStr ++ "_".data ++ s ++ ".md".data
  else s ++ ".md".data

/-- Lines 342–375: assemble the whole document string. -/
def assembleContent (ext : PyExt) (cfg : Config) (dateStr : Str) (inferredTitle : Str)
    (conversationId : PyVal) (createTime : PyVal) (ms : List PyVal) : Str :=
  let sep := cfg.messageSeparator
  let header :=
    if !dateStr.isEmpty then "# ".data ++ dateStr ++ " ".data ++ inferredTitle ++ sep
    else "# ".data ++ inferredTitle ++ sep
  let idLine := "<sub>Conversation ID: ".data ++ pyStr conversationId ++ "</sub>".data ++ sep
  let ctLine :=
    match tsOf createTime with
    | some t => "<sub>Creation time: ".data ++ ext.fmtDateTime t ++ "</sub>".data ++ sep
    | Option.none => []
  let summaryLine :=
    if cfg.enableSummarization then "**Summary:** [Not implemented yet]".data ++ sep
    else []
  header ++ idLine ++ ctLine ++ summaryLine ++ renderedMessages cfg ms

/-- The body of the per-entry `try` of `process_conversations`, for a dict
entry. -/
def processEntryE (ext : PyExt) (cfg : Config) (d : List (Str × PyVal)) :
    Except Unit Outcome :=
  let title := pyGetD d ("title".data) (.str [])
  let mapping := pyGetD d ("mapping".data) (.dict [])
  let conversationId := pyGetD d ("id".data) (.str ("unknown".data))
  let cct := resolveConvTime ext.parseDate (dget d ("create_time".data))
  if skipOldCheck ext cfg cct then .ok .skippedOld
  else if !mapping.truthy then .ok .skipped
  else
    match mapping with
    | .dict mm =>
      let messages := collectMessages mm
      if messages.isEmpty then .ok .skipped
      else
        match sortMessages messages with
        | .error e => .error e
        | .ok sorted =>
          let firstMsg := sorted.headD (.dict [])
          let mct := get_create_time_safely ext.parseDate firstMsg
          match finalCreateTime cct mct with
          | .error e => .error e
          | .ok createTime =>
            if skipOldCheck ext cfg createTime then .ok .skippedOld
            else
              match getTitle title (some firstMsg) with
              | .error e => .error e
              | .ok inferredTitle =>
                let dateStr := mkDateStr ext createTime
                let fileName := mkFileName dateStr inferredTitle
                let content := assembleContent ext cfg dateStr inferredTitle
                  conversationId createTime sorted
                if (strStrip content).length < 10 then .ok .skipped
                else .ok (.written fileName content)
    | _ => .error ()

/-- One iteration of the `for entry in data` loop: non-dict entries are
skipped, and the outer `except` turns any uncaught exception into a
skip. -/
def processEntry (ext : PyExt) (cfg : Config) (entry : PyVal) : Outcome :=
  match entry with
  | .dict d =>
    match processEntryE ext cfg d with
    | .ok o => o
    | .error _ => .skipped
  | _ => .skipped

/-! ## Pipeline 2: `obsidian_chatgpt_organizer.py` -/

/-- `TOPIC_KEYWORDS`, in declaration order. -/
def TOPIC_KEYWORDS : List (Str × List Str) :=
  [ ("python".data, ["python".data, "django".data, "flask".data, "pandas".data,
      "numpy".data, "matplotlib".data, "tensorflow".data, "pytorch".data]),
    ("javascript".data, ["javascript".data, "js".data, "node".data, "react".data,
      "vue".data, "angular".data, "typescript".data, "npm".data]),
    ("startup".data, ["startup".data, "founder".data, "venture".data, "pitch".data,
      "entrepreneurship".data, "business model".data, "mvp".data]),
    ("marketing".data, ["marketing".data, "seo".data, "advertising".data,
      "customer".data, "brand".data, "social media".data, "content".data]),
    ("vc".data, ["vc".data, "venture capital".data, "investor".data, "funding".data,
      "series a".data, "angel".data, "term sheet".data]),
    ("ai".data, ["ai".data, "artificial intelligence".data, "machine learning".data,
      "ml".data, "deep learning".data, "llm".data, "neural".data]),
    ("data".data, ["data".data, "database".data, "sql".data, "nosql".data,
      "analytics".data, "visualization".data, "dashboard".data]),
    ("web".data, ["web".data, "html".data, "css".data, "frontend".data,
      "backend".data, "fullstack".data, "responsive".data]),
    ("mobile".data, ["mobile".data, "ios".data, "android".data, "app".data,
      "swift".data, "kotlin".data, "react native".data]),
    ("cloud".data, ["cloud".data, "aws".data, "azure".data, "gcp".data,
      "serverless".data, "docker".data, "kubernetes".data]),
    ("security".data, ["security".data, "encryption".data, "authentication".data,
      "vulnerability".data, "firewall".data, "cybersecurity".data]),
    ("blockchain".data, ["blockchain".data, "crypto".data, "bitcoin".data,
      "ethereum".data, "nft".data, "token".data, "web3".data]),
    ("design".data, ["design".data, "ui".data, "ux".data, "figma".data,
      "sketch".data, "wireframe".data, "prototype".data]),
    ("career".data, ["career".data, "resume".data, "interview".data, "job".data,
      "salary".data, "promotion".data, "skills".data]),
    ("productivity".data, ["productivity".data, "workflow".data, "efficiency".data,
      "automation".data, "tool".data, "process".data]),
    ("health".data, ["health".data, "fitness".data, "nutrition".data, "medical".data,
      "exercise".data, "wellness".data, "diet".data]),
    ("education".data, ["education".data, "learning".data, "course".data,
      "tutorial".data, "teach".data, "student".data, "training".data]) ]

/-- `TOPIC_TRANSITION_PHRASES`, in declaration order. -/
def topicPhrases : List Str :=
  [ "now let's switch to".data,
    "moving on to".data,
    "let's change the subject".data,
    "on a different topic".data,
    "switching gears".data,
    "let's talk about something else".data,
    "changing the subject".data,
    "new topic:".data,
    "regarding your other question".data,
    "to address your next point".data,
    "on another note".data ]

/-- The renderer's turn-start marker, `re.split(r'\n\n\*\*', content)`
splits on this literal. -/
def turnSep : Str := "\n\n**".data

/-- Fuel-driven literal split on `turnSep` (fuel `≥ 1` steps never runs
out because every step consumes at least `|turnSep|` characters). -/
def splitMarkerAux : Nat → Str → List Str
  | 0, s => [s]
  | fuel + 1, s =>
    match strFindFrom s turnSep 0 with
    | some j => s.take j :: splitMarkerAux fuel (s.drop (j + turnSep.length))
    | Option.none => [s]

/-- `re.split(r'\n\n\*\*', content)`. -/
def splitMarker (s : Str) : List Str := splitMarkerAux (s.length + 1) s

/-- `len(keyword.split()) > 1`. -/
def isMultiwordKw (kw : Str) : Bool := 1 < (pySplitWs kw).length

/-- `extract_tags_from_content(content)`, with the NLTK tokenizer and
stopword set supplied by the caller.  The token filter, per-token scoring
loop, strict `score > 1` selection and the leading `'chatgpt'` tag follow
lines 67–91 of the source. -/
def extract_tags_from_content (tokenize : Str → List Str) (stopWords : List Str)
    (content0 : Str) : List Str :=
  let content := strLower content0
  let tokens := tokenize content
  let filteredTokens := tokens.filter fun w => pyIsAlnum w && !stopWords.contains w
  let topicScores : List ((Str × List Str) × Nat) :=
    filteredTokens.foldl
      (fun scores tok =>
        scores.map fun e =>
          if e.1.2.contains tok ||
             e.1.2.any (fun kw => strContains content kw && isMultiwordKw kw)
          then (e.1, e.2 + 1) else e)
      (TOPIC_KEYWORDS.map fun tk => (tk, 0))
  let relevantTopics := (topicScores.filter fun e => 1 < e.2).map fun e => e.1.1
  "chatgpt".data :: relevantTopics

/-- The loop body of `detect_topic_transitions`: walk the chunks produced
by the marker split, tracking `current_index`, recording at most one
transition offset per chunk (never in the first chunk). -/
def detectAux (content : Str) : List Str → Bool → Int → List Int
  | [], _, _ => []
  | msg :: rest, first, cur =>
    let fnd := pyFind content msg cur
    let res := detectAux content rest false (fnd + msg.length)
    if first then res
    else
      match topicPhrases.find? (fun p => strContains (strLower msg) p) with
      | some phrase => (fnd + pyFind (strLower msg) phrase 0) :: res
      | Option.none => res

/-- `detect_topic_transitions(content)`. -/
def detect_topic_transitions (content : Str) : List Int :=
  detectAux content (splitMarker content) true 0

/-- The partition loop of `split_content_by_topics` (before the blank
filter): cut at the nearest turn marker at or before each transition. -/
def buildParts (content : Str) : List Int → Int → List Str
  | [], start => [pySliceFrom content start]
  | pos :: rest, start =>
    let msI := pyRfindEnd content turnSep pos
    let ms : Int := if msI = -1 then 0 else msI
    pySlice content start ms :: buildParts content rest ms

/-- `split_content_by_topics(content)`. -/
def split_content_by_topics (content : Str) : List Str :=
  let transitions := detect_topic_transitions content
  if transitions.isEmpty then [content]
  else (buildParts content transitions 0).filter fun part => !(strStrip part).isEmpty

/-- The partition before the empty/whitespace filter (the zero-transition
branch never filters). -/
def rawSegments (content : Str) : List Str :=
  let transitions := detect_topic_transitions content
  if transitions.isEmpty then [content]
  else buildParts content transitions 0

/-! ## Claim-side (specification) definitions

These restate parts of the specification in its own words, to be compared
against the embedded code. -/

/-- The positive conversation-level epoch, when there is one. -/
def convTsOf (v : PyVal) : Option Int :=
  match pyAsNum v with
  | some t => if 0 < t then some t else Option.none
  | Option.none => Option.none

/-- The earliest turn's resolved timestamp (the turn the pipeline actually
consults: the head of the sorted message list). -/
def turnFallbackTs (ext : PyExt) (d : List (Str × PyVal)) : Option Int :=
  match pyGetD d ("mapping".data) (.dict []) with
  | .dict mm =>
    match sortMessages (collectMessages mm) with
    | .ok (m0 :: _) => get_create_time_safely ext.parseDate m0
    | _ => Option.none
  | _ => Option.none

/-- The specification's "best available timestamp": the conversation-level
timestamp when it resolves to a positive epoch, otherwise the earliest
turn's resolved timestamp. -/
def claimResolvedTs (ext : PyExt) (entry : PyVal) : Option Int :=
  match entry with
  | .dict d =>
    match convTsOf (resolveConvTime ext.parseDate (dget d ("create_time".data))) with
    | some t => some t
    | Option.none => turnFallbackTs ext d
  | _ => Option.none

/-- "No timestamp resolves at all": no positive conversation-level epoch
and no turn yields a timestamp. -/
def noTimestampEntry (ext : PyExt) (entry : PyVal) : Prop :=
  claimResolvedTs ext entry = Option.none ∧
  (match entry with
   | .dict d =>
     match pyGetD d ("mapping".data) (.dict []) with
     | .dict mm => ∀ m ∈ collectMessages mm, get_create_time_safely ext.parseDate m = Option.none
     | _ => True
   | _ => True)

/-- The claim's per-node notion for C3/C5: the `message` field is present
and non-null. -/
def hasPresentNonNullMessage (item : PyVal) : Bool :=
  match item with
  | .dict idict =>
    match dget idict ("message".data) with
    | some PyVal.none => false
    | some _ => true
    | Option.none => false
  | _ => false

/-- Number of mapping nodes whose `message` field is present and
non-null (the count C5 asserts). -/
def countPresentNonNull (mm : List (Str × PyVal)) : Nat :=
  (mm.map Prod.snd).countP fun item => hasPresentNonNullMessage item = true

/-- Claim-side collection for C3 as amended: the `message` field of every
node whose `message` is present and truthy, in map-iteration order. -/
def specMappingMessages (mm : List (Str × PyVal)) : List PyVal :=
  mm.filterMap fun kv =>
    match kv.2 with
    | .dict idict =>
      match dget idict ("message".data) with
      | some msg => if msg.truthy then some msg else Option.none
      | Option.none => Option.none
    | _ => Option.none

/-- The sort key actually used by line 294 (`create_time` field, absent or
falsy ↦ 0), as an integer. -/
def codeKey (m : PyVal) : Int := (pyAsNum (msgKey m)).getD 0

/-- The claim's sort key for C4: the fully resolved timestamp, unresolved
↦ 0. -/
def resolvedKey (parseDate : Str → Option Int) (m : PyVal) : Int :=
  (get_create_time_safely parseDate m).getD 0

/-- `ascendingBy key l`: consecutive elements are in non-decreasing key
order. -/
def ascendingBy (key : PyVal → Int) : List PyVal → Bool
  | [] => true
  | [_] => true
  | a :: b :: t => decide (key a ≤ key b) && ascendingBy key (b :: t)

/-- The claim-side score of C7: one point per filtered token that equals a
single-word keyword of the topic, or (for any filtered token) when some
multi-word keyword phrase of the topic occurs in the lowercased text. -/
def specTopicScore (content : Str) (filteredTokens : List Str) (kws : List Str) : Nat :=
  filteredTokens.countP fun tok =>
    (kws.filter fun kw => !isMultiwordKw kw).contains tok ||
    kws.any fun kw => isMultiwordKw kw && strContains content kw

/-- The tag list C7 predicts: the sentinel tag followed by the topics whose
spec-side score strictly exceeds 1, in lexicon order. -/
def specTagList (tokenize : Str → List Str) (stopWords : List Str) (content0 : Str) :
    List Str :=
  let content := strLower content0
  let filteredTokens :=
    (tokenize content).filter fun w => pyIsAlnum w && !stopWords.contains w
  "chatgpt".data ::
    (TOPIC_KEYWORDS.filter fun tk => 1 < specTopicScore content filteredTokens tk.2).map
      Prod.fst

/-- The cut position used by `split_content_by_topics` for one transition
offset, as a natural number. -/
def cutPoint (s : Str) (t : Int) : Nat :=
  let r := pyRfindEnd s turnSep t
  if r = -1 then 0 else r.toNat

/-! ## Concrete fixtures used by witnesses and counterexamples -/

/-- A parser stub: every string fails to parse. -/
def pdNone : Str → Option Int := fun _ => Option.none

/-- External collaborators for a 2019-era fixture. -/
def extFix : PyExt :=
  ⟨pdNone, fun _ => 2019, fun _ => some ("2019-01-01".data), fun _ => "2019-01-01 00:00:00".data⟩

/-- External collaborators whose parser resolves every string to the epoch
`-100` (a pre-1970 date), with the corresponding year 1969. -/
def extNeg : PyExt :=
  ⟨fun _ => some (-100), fun t => if t < 0 then 1969 else 2019, fun _ => Option.none,
    fun _ => "x".data⟩

/-- The default-like configuration used by fixtures. -/
def cfgFix : Config :=
  ⟨"User".data, "ChatGPT".data, "\n\n".data, true, 2025, false⟩

/-- An entry that passes every guard and gets written. -/
def entryGood : PyVal :=
  .dict [("title".data, .str ("Hello".data)),
    ("mapping".data, .dict [("a".data, .dict [("message".data,
      .dict [("author".data, .dict [("role".data, .str ("user".data))]),
        ("content".data, .str ("Hello world".data))])])])]

/-- An entry with a conversation-level epoch of 5 (year 1970-ish, mapped to
2019 by `extFix`). -/
def entryOld : PyVal :=
  .dict [("create_time".data, .int 5),
    ("mapping".data, .dict [("a".data, .dict [("message".data,
      .dict [("content".data, .str ("Hello world".data))])])])]

/-- An entry whose only timestamp is a date string in a turn, resolved by
`extNeg` to the negative epoch `-100`. -/
def entryNeg : PyVal :=
  .dict [("mapping".data, .dict [("a".data, .dict [("message".data,
    .dict [("content".data, .str ("hello world this is long enough".data)),
      ("created_at".data, .str ("1969-01-01".data))])])])]

/-- An entry with no timestamp anywhere. -/
def entryNoTs : PyVal :=
  .dict [("title".data, .str ("Hi".data)),
    ("mapping".data, .dict [("a".data, .dict [("message".data,
      .dict [("content".data, .str ("some body text here".data))])])])]

/-- A message whose only timestamp is in the alternate `timestamp` field
(sort key 0, resolved timestamp 100). -/
def msgAlt : PyVal := .dict [("timestamp".data, .int 100)]

/-- A message with `create_time` 50 (sort key 50, resolved timestamp 50). -/
def msgCt : PyVal := .dict [("create_time".data, .int 50)]

/-- A mapping node whose `message` is present but an empty dict (non-null,
falsy). -/
def nodeEmptyMsg : List (Str × PyVal) := [("message".data, .dict [])]

/-- A mapping whose single node carries a present, empty-string message. -/
def mapEmptyStrMsg : List (Str × PyVal) :=
  [("a".data, .dict [("message".data, .str [])])]

/-- A mapping whose single node carries a present, non-dict (string)
message. -/
def mapStrMsg : List (Str × PyVal) :=
  [("a".data, .dict [("message".data, .str ("hi".data))])]

/-- A message whose `content.parts` is a number, so the flattening loop
raises `TypeError`. -/
def msgBadParts : PyVal :=
  .dict [("content".data, .dict [("parts".data, .int 5)])]

/-- A document whose first raw piece is whitespace-only and is dropped by
the segmenter. -/
def wsDoc : Str := "  \n\n**A**: moving on to x".data

/-- A short document with no transition phrases. -/
def plainDoc : Str := "hello there".data

/-- A mapping node has a truthy `message` field (what `collectRaw`
actually keeps). -/
def hasTruthyMessage (item : PyVal) : Bool :=
  match item with
  | .dict idict =>
    match dget idict ("message".data) with
    | some msg => msg.truthy
    | Option.none => false
  | _ => false

/-- A mapping node has a dict-valued `message` field (what the inline
pipeline collection keeps). -/
def hasDictMessage (item : PyVal) : Bool :=
  match item with
  | .dict idict =>
    match dget idict ("message".data) with
    | some (.dict _) => true
    | _ => false
  | _ => false

/-- Pure insertion by the line-294 sort key, used as the specification
bridge for the stable sort: a new element goes after every element whose
key is not greater. -/
def orderedInsertKey (m : PyVal) : List PyVal → List PyVal
  | [] => [m]
  | y :: ys => if codeKey m < codeKey y then m :: y :: ys else y :: orderedInsertKey m ys

/-- The mapping of `entryNoTs`, spelled out. -/
def entryNoTsMapping : List (Str × PyVal) :=
  [("a".data, .dict [("message".data,
    .dict [("content".data, .str ("some body text here".data))])])]

/-! # Theorems -/

/-! ## Generic list/string lemmas -/

theorem strConcat_eq_join : ∀ l : List Str, strConcat l = l.flatten
  | [] => rfl
  | s :: rest => by simp [strConcat, strConcat_eq_join rest]

theorem joinSep_cons (sep : Str) (a : Str) (l : List Str) (h : l ≠ []) :
    joinSep sep (a :: l) = a ++ sep ++ joinSep sep l := by
  cases l with
  | nil => exact absurd rfl h
  | cons b t => rfl

theorem strStarts_iff : ∀ t p : Str, strStarts t p = true ↔ t.take p.length = p
  | _, [] => by simp [strStarts]
  | [], _ :: _ => by simp [strStarts]
  | c :: t, p :: ps => by
    simp only [strStarts, List.length_cons, List.take_succ_cons, Bool.and_eq_true,
      decide_eq_true_eq, List.cons.injEq]
    exact and_congr Iff.rfl (strStarts_iff t ps)

theorem strStarts_length {t p : Str} (h : strStarts t p = true) : p.length ≤ t.length := by
  have := (strStarts_iff t p).mp h
  calc p.length = (t.take p.length).length := by rw [this]
    _ ≤ t.length := by simp

theorem strStarts_refl (t : Str) : strStarts t t = true := by
  rw [strStarts_iff]; simp

theorem strStarts_append (p t : Str) : strStarts (p ++ t) p = true := by
  rw [strStarts_iff]; simp [List.take_append_eq_append_take]

/-- Splice a string around an occurrence of `p` at index `j`. -/
theorem strStarts_splice {s p : Str} {j : Nat} (h : strStarts (s.drop j) p = true) :
    s = s.take j ++ p ++ s.drop (j + p.length) := by
  have h1 : (s.drop j).take p.length = p := (strStarts_iff _ _).mp h
  have h2 : s.drop j = p ++ s.drop (j + p.length) := by
    have h3 := List.take_append_drop p.length (s.drop j)
    rw [h1, List.drop_drop] at h3
    exact h3.symm
  calc s = s.take j ++ s.drop j := (List.take_append_drop _ _).symm
    _ = s.take j ++ (p ++ s.drop (j + p.length)) := by rw [← h2]
    _ = s.take j ++ p ++ s.drop (j + p.length) := by rw [List.append_assoc]

theorem findSubAux_some (sub : Str) :
    ∀ (t : Str) (j r : Nat), findSubAux sub t j = some r →
      j ≤ r ∧ strStarts (t.drop (r - j)) sub = true
  | [], j, r => by
    simp only [findSubAux]
    split
    · rename_i hs
      intro h
      cases h
      simpa using hs
    · intro h; cases h
  | c :: t, j, r => by
    simp only [findSubAux]
    split
    · rename_i hs
      intro h
      cases h
      simpa using hs
    · intro h
      obtain ⟨h1, h2⟩ := findSubAux_some sub t (j + 1) r h
      refine ⟨by omega, ?_⟩
      have : r - j = (r - (j + 1)) + 1 := by omega
      rw [this]
      simpa using h2

theorem findSubAux_complete (sub : Str) :
    ∀ (t : Str) (j k : Nat), strStarts (t.drop k) sub = true →
      ∃ r, findSubAux sub t j = some r ∧ r ≤ j + k
  | [], j, k => by
    intro h
    simp only [List.drop_nil] at h
    refine ⟨j, ?_, by omega⟩
    simp [findSubAux, h]
  | c :: t, j, k => by
    intro h
    match k with
    | 0 =>
      simp only [List.drop_zero] at h
      exact ⟨j, by simp [findSubAux, h], by omega⟩
    | k' + 1 =>
      simp only [findSubAux]
      split
      · exact ⟨j, rfl, by omega⟩
      · simp only [List.drop_succ_cons] at h
        obtain ⟨r, hr, hle⟩ := findSubAux_complete sub t (j + 1) k' h
        exact ⟨r, hr, by omega⟩

/-! ## C8 — the sentinel tag -/

/-- Claim C8: for every input text (any tokenizer, stopword set and
content, including empty content) the Tagger's tag list is non-empty and
its first element is the fixed sentinel tag `'chatgpt'`. -/
theorem claim_C8_sentinel_first (tokenize : Str → List Str) (stopWords : List Str)
    (content : Str) :
    extract_tags_from_content tokenize stopWords content ≠ [] ∧
    (extract_tags_from_content tokenize stopWords content).head? =
      some ("chatgpt".data) := by
  constructor <;> simp [extract_tags_from_content]

/-! ## C6 — flattening failures degrade to a placeholder -/

/-- Claim C6: if any field access raises during content flattening (the
body of `_get_message_content` evaluates to an exception), the function
returns the fixed placeholder string instead of propagating, so flattening
is total. -/
theorem claim_C6_placeholder (m : PyVal) (e : Unit)
    (h : getMessageContentE m = .error e) :
    getMessageContent m = .str contentErrPlaceholder := by
  simp [getMessageContent, h]

/-- Witness for C6: a message whose `content.parts` is the number 5 makes
the flattening loop raise, and the result is the placeholder. -/
theorem claim_C6_placeholder_witness :
    getMessageContentE msgBadParts = .error () ∧
    getMessageContent msgBadParts = .str contentErrPlaceholder :=
  ⟨rfl, claim_C6_placeholder msgBadParts () rfl⟩

/-! ## C5 — turn counts -/

theorem collectRaw_length : ∀ mm : List (Str × PyVal),
    (collectRaw mm).length = (mm.map Prod.snd).countP hasTruthyMessage
  | [] => by simp [collectRaw]
  | (k, item) :: rest => by
    have ih := collectRaw_length rest
    cases item with
    | dict idict =>
      simp only [collectRaw, List.map_cons, List.countP_cons]
      cases h : dget idict ("message".data) with
      | none => simp [hasTruthyMessage, h, ih]
      | some msg =>
        by_cases ht : msg.truthy
        · simp [hasTruthyMessage, h, ht, ih]
        · simp [hasTruthyMessage, h, ht, ih]
    | none => simp [collectRaw, hasTruthyMessage, List.countP_cons, ih]
    | bool b => simp [collectRaw, hasTruthyMessage, List.countP_cons, ih]
    | int n => simp [collectRaw, hasTruthyMessage, List.countP_cons, ih]
    | str s => simp [collectRaw, hasTruthyMessage, List.countP_cons, ih]
    | list xs => simp [collectRaw, hasTruthyMessage, List.countP_cons, ih]

theorem collectMessages_length : ∀ mm : List (Str × PyVal),
    (collectMessages mm).length = (mm.map Prod.snd).countP hasDictMessage
  | [] => by simp [collectMessages]
  | (k, item) :: rest => by
    have ih := collectMessages_length rest
    cases item with
    | dict idict =>
      simp only [collectMessages, List.map_cons, List.countP_cons]
      cases h : dget idict ("message".data) with
      | none => simp [hasDictMessage, h, ih]
      | some msg => cases msg <;> simp [hasDictMessage, h, ih]
    | none => simp [collectMessages, hasDictMessage, List.countP_cons, ih]
    | bool b => simp [collectMessages, hasDictMessage, List.countP_cons, ih]
    | int n => simp [collectMessages, hasDictMessage, List.countP_cons, ih]
    | str s => simp [collectMessages, hasDictMessage, List.countP_cons, ih]
    | list xs => simp [collectMessages, hasDictMessage, List.countP_cons, ih]

/-- Claim C5 as amended: the number of Turns produced equals the number of
mapping nodes whose `message` field is *truthy* (for
`extract_messages_safely`'s mapping branch), respectively *dict-valued*
(for the inline collection of `process_conversations`); for a flat
`messages` list it equals the number of truthy entries. -/
theorem claim_C5_amended (mm : List (Str × PyVal)) (xs : List PyVal) :
    (collectRaw mm).length = (mm.map Prod.snd).countP hasTruthyMessage ∧
    (collectMessages mm).length = (mm.map Prod.snd).countP hasDictMessage ∧
    (xs.filter PyVal.truthy).length = xs.countP PyVal.truthy :=
  ⟨collectRaw_length mm, collectMessages_length mm,
    (List.countP_eq_length_filter _ _).symm⟩

/-- Counterexample for C5 as stated: a node whose `message` is a present,
non-null empty dict yields zero turns in `extract_messages_safely`; a node
whose `message` is a present, non-null string yields zero turns in the
inline pipeline collection.  Both counts of "present and non-null"
messages are 1. -/
theorem claim_C5_counterexample :
    extract_messages_safely
        (.dict [("mapping".data, .dict [("a".data, .dict nodeEmptyMsg)])]) = .ok [] ∧
    countPresentNonNull [("a".data, .dict nodeEmptyMsg)] = 1 ∧
    collectMessages mapStrMsg = [] ∧
    countPresentNonNull mapStrMsg = 1 :=
  ⟨rfl, rfl, rfl, rfl⟩

/-! ## C3 — message discovery -/

theorem collectRaw_eq_spec : ∀ mm : List (Str × PyVal),
    collectRaw mm = specMappingMessages mm
  | [] => by simp [collectRaw, specMappingMessages]
  | (k, item) :: rest => by
    have ih := collectRaw_eq_spec rest
    cases item with
    | dict idict =>
      simp only [collectRaw, specMappingMessages, List.filterMap_cons]
      cases h : dget idict ("message".data) with
      | none => simpa [h] using ih
      | some msg =>
        by_cases ht : msg.truthy
        · simpa [h, ht] using ih
        · simpa [h, ht] using ih
    | none => simpa [collectRaw, specMappingMessages] using ih
    | bool b => simpa [collectRaw, specMappingMessages] using ih
    | int n => simpa [collectRaw, specMappingMessages] using ih
    | str s => simpa [collectRaw, specMappingMessages] using ih
    | list xs => simpa [collectRaw, specMappingMessages] using ih

/-- Claim C3 as amended: message discovery tries, in order, (a) a
`mapping` structure — collecting the `message` field of every node whose
`message` is present and truthy, in map-iteration order; (b) a flat
`messages` list with falsy entries filtered out; with neither key present
the result is empty; and a record whose `mapping` is absent or falsy is
counted as skipped by the pipeline, not treated as an error. -/
theorem claim_C3_amended (ext : PyExt) (cfg : Config) (d : List (Str × PyVal))
    (mm : List (Str × PyVal)) (xs : List PyVal) :
    (dget d ("mapping".data) = some (.dict mm) →
      extract_messages_safely (.dict d) = .ok (specMappingMessages mm)) ∧
    (dget d ("mapping".data) = Option.none →
      dget d ("messages".data) = some (.list xs) →
      extract_messages_safely (.dict d) = .ok (xs.filter PyVal.truthy)) ∧
    (dget d ("mapping".data) = Option.none →
      dget d ("messages".data) = Option.none →
      extract_messages_safely (.dict d) = .ok []) ∧
    ((pyGetD d ("mapping".data) (.dict [])).truthy = false →
      processEntry ext cfg (.dict d) = .skipped ∨
      processEntry ext cfg (.dict d) = .skippedOld) := by
  refine ⟨?_, ?_, ?_, ?_⟩
  · intro h
    simp only [extract_messages_safely, h, Option.isSome_some, if_true, pyGetD,
      Option.getD_some]
    by_cases hmm : mm.isEmpty
    · cases mm with
      | nil => simp [specMappingMessages, PyVal.truthy]
      | cons a t => simp at hmm
    · have : (PyVal.dict mm).truthy = true := by
        simp [PyVal.truthy, hmm]
      simp [this, collectRaw_eq_spec]
  · intro h1 h2
    simp only [extract_messages_safely, pyGetD, h1, h2, Option.isSome_none,
      Option.isSome_some, Option.getD_some, Bool.false_eq_true, if_false, if_true]
    rfl
  · intro h1 h2
    simp [extract_messages_safely, h1, h2]
  · intro h
    simp only [processEntry, processEntryE]
    by_cases hold : skipOldCheck ext cfg
        (resolveConvTime ext.parseDate (dget d ("create_time".data)))
    · right; simp [hold]
    · left; simp [hold, h]

/-- Witness for C3: a concrete record with a `mapping` key takes the
mapping branch and collects the truthy messages in order. -/
theorem claim_C3_amended_witness :
    dget [("mapping".data, PyVal.dict mapStrMsg)] ("mapping".data) =
      some (.dict mapStrMsg) ∧
    extract_messages_safely (.dict [("mapping".data, PyVal.dict mapStrMsg)]) =
      .ok (specMappingMessages mapStrMsg) :=
  ⟨rfl, (claim_C3_amended extFix cfgFix [("mapping".data, PyVal.dict mapStrMsg)]
    mapStrMsg []).1 rfl⟩

/-- Counterexample for C3 as stated: a node *has* a `message` field (the
empty string, non-null) yet `extract_messages_safely` collects nothing, so
"collecting the `message` field of every node that has one" fails. -/
theorem claim_C3_counterexample :
    extract_messages_safely (.dict [("mapping".data, .dict mapEmptyStrMsg)]) = .ok [] ∧
    dget [("message".data, PyVal.str [])] ("message".data) = some (.str []) :=
  ⟨rfl, rfl⟩

/-! ## C7 — keyword scoring -/

/-- Every multi-word keyword in the lexicon contains whitespace, so it is
not `isalnum` and can never equal a filtered token. -/
theorem lexicon_multiword_not_alnum :
    ∀ tk ∈ TOPIC_KEYWORDS, ∀ kw ∈ tk.2, isMultiwordKw kw = true → pyIsAlnum kw = false := by
  decide

/-- Unrolling the per-token scoring fold: each topic's final score is its
initial score plus the number of tokens satisfying its hit condition. -/
theorem scoresFoldlTag (content : Str) :
    ∀ (ts : List Str) (L : List (Str × List Str)) (f : (Str × List Str) → Nat),
    ts.foldl
      (fun scores tok =>
        scores.map fun e =>
          if e.1.2.contains tok ||
             e.1.2.any (fun kw => strContains content kw && isMultiwordKw kw)
          then (e.1, e.2 + 1) else e)
      (L.map fun tk => (tk, f tk)) =
    L.map fun tk =>
      (tk, f tk + ts.countP fun tok =>
        tk.2.contains tok ||
        tk.2.any (fun kw => strContains content kw && isMultiwordKw kw)) := by
  intro ts
  induction ts with
  | nil => intro L f; simp
  | cons t ts ih =>
    intro L f
    rw [List.foldl_cons]
    have hmap :
        (L.map fun tk => (tk, f tk)).map
          (fun e =>
            if e.1.2.contains t ||
               e.1.2.any (fun kw => strContains content kw && isMultiwordKw kw)
            then (e.1, e.2 + 1) else e) =
        L.map fun tk =>
          (tk, (fun tk => f tk +
            if tk.2.contains t ||
               tk.2.any (fun kw => strContains content kw && isMultiwordKw kw)
            then 1 else 0) tk) := by
      rw [List.map_map]
      apply List.map_congr_left
      intro tk _
      simp only [Function.comp]
      cases hc :
          tk.2.contains t ||
            tk.2.any (fun kw => strContains content kw && isMultiwordKw kw)
      · simp
      · simp
    rw [hmap, ih]
    apply List.map_congr_left
    intro tk _
    simp only [List.countP_cons]
    cases hc :
        tk.2.contains t ||
          tk.2.any (fun kw => strContains content kw && isMultiwordKw kw)
    · simp
    · simp only [Prod.mk.injEq, true_and, if_true]
      omega

/-- Projecting the qualifying topics out of the scored list. -/
theorem filterScoresMap :
    ∀ (L : List (Str × List Str)) (g : (Str × List Str) → Nat),
    ((L.map fun tk => (tk, g tk)).filter fun e => 1 < e.2).map (fun e => e.1.1) =
    (L.filter fun tk => 1 < g tk).map Prod.fst
  | [], g => by simp
  | tk :: L, g => by
    by_cases h : 1 < g tk
    · simp [List.filter_cons, h, filterScoresMap L g]
    · simp [List.filter_cons, h, filterScoresMap L g]

theorem any_and_comm (l : List Str) (f g : Str → Bool) :
    l.any (fun kw => f kw && g kw) = l.any (fun kw => g kw && f kw) := by
  induction l with
  | nil => rfl
  | cons a t ih => simp [List.any_cons, ih, Bool.and_comm]

/-- For an alphanumeric token, the code's hit condition (membership in the
full keyword list) agrees with the claim's (membership among the
single-word keywords), because multi-word lexicon keywords contain
whitespace. -/
theorem codeHit_eq_specHit (content : Str) (tk : Str × List Str)
    (htk : tk ∈ TOPIC_KEYWORDS) (tok : Str) (halnum : pyIsAlnum tok = true) :
    (tk.2.contains tok ||
      tk.2.any fun kw => strContains content kw && isMultiwordKw kw) =
    ((tk.2.filter fun kw => !isMultiwordKw kw).contains tok ||
      tk.2.any fun kw => isMultiwordKw kw && strContains content kw) := by
  congr 1
  · by_cases hmem : tok ∈ tk.2
    · have hnmw : isMultiwordKw tok = false := by
        by_cases hmw : isMultiwordKw tok = true
        · have := lexicon_multiword_not_alnum tk htk tok hmem hmw
          rw [this] at halnum
          cases halnum
        · simpa using hmw
      simp [hmem, List.mem_filter, hnmw]
    · simp [hmem, List.mem_filter]
  · exact any_and_comm tk.2 (fun kw => strContains content kw) isMultiwordKw

/-- Claim C7: a topic qualifies exactly when its score strictly exceeds 1,
where the score counts, over the filtered tokens, exact matches against the
topic's single-word keywords, plus one per token for a topic one of whose
multi-word phrases occurs as a substring of the whole lowercased text; the
qualifying topics are listed in lexicon order.  Formally the Tagger output
equals the specification-side tag list built from exactly that score. -/
theorem claim_C7_scoring (tokenize : Str → List Str) (stopWords : List Str)
    (content0 : Str) :
    extract_tags_from_content tokenize stopWords content0 =
      specTagList tokenize stopWords content0 := by
  dsimp only [extract_tags_from_content, specTagList]
  congr 1
  have h0 :
      (TOPIC_KEYWORDS.map fun tk => (tk, (0 : Nat))) =
      TOPIC_KEYWORDS.map fun tk => (tk, (fun _ => (0 : Nat)) tk) := rfl
  rw [h0, scoresFoldlTag (strLower content0) _ TOPIC_KEYWORDS (fun _ => 0),
    filterScoresMap]
  congr 1
  apply List.filter_congr
  intro tk htk
  have hcongr :
      (List.filter (fun w => pyIsAlnum w && !stopWords.contains w)
          (tokenize (strLower content0))).countP
        (fun tok => tk.2.contains tok ||
          tk.2.any fun kw => strContains (strLower content0) kw && isMultiwordKw kw) =
      specTopicScore (strLower content0)
        (List.filter (fun w => pyIsAlnum w && !stopWords.contains w)
          (tokenize (strLower content0))) tk.2 := by
    unfold specTopicScore
    apply List.countP_congr
    intro tok htok
    have halnum : pyIsAlnum tok = true := by
      rw [List.mem_filter, Bool.and_eq_true] at htok
      exact htok.2.1
    rw [codeHit_eq_specHit (strLower content0) tk htk tok halnum]
  rw [Nat.zero_add, hcongr]


/-! ## C4 — turn ordering -/

theorem pyLtE_num {a b : PyVal} {x y : Int} (ha : pyAsNum a = some x)
    (hb : pyAsNum b = some y) : pyLtE a b = .ok (decide (x < y)) := by
  simp [pyLtE, ha, hb]

theorem insertSorted_ok_perm (m : PyVal) :
    ∀ (acc r : List PyVal), insertSorted m acc = .ok r → r.Perm (m :: acc)
  | [], r => by
    intro h
    simp only [insertSorted] at h
    injection h with h
    subst h
    exact List.Perm.refl _
  | y :: ys, r => by
    intro h
    simp only [insertSorted] at h
    split at h
    · simp at h
    · injection h with h
      subst h
      exact List.Perm.refl _
    · split at h
      · simp at h
      · rename_i r' hr
        injection h with h
        subst h
        exact ((insertSorted_ok_perm m ys r' hr).cons y).trans (List.Perm.swap m y ys)

theorem sortGo_ok_perm : ∀ (ms acc l : List PyVal), sortGo ms acc = .ok l →
    l.Perm (acc ++ ms)
  | [], acc, l => by
    intro h
    simp only [sortGo] at h
    injection h with h
    subst h
    simp
  | m :: rest, acc, l => by
    intro h
    simp only [sortGo] at h
    split at h
    · simp at h
    · rename_i acc2 hacc2
      have ih := sortGo_ok_perm rest acc2 l h
      have hp := insertSorted_ok_perm m acc acc2 hacc2
      exact ih.trans ((hp.append_right rest).trans List.perm_middle.symm)

theorem orderedInsertKey_mem {m z : PyVal} :
    ∀ {l : List PyVal}, z ∈ orderedInsertKey m l → z = m ∨ z ∈ l := by
  intro l
  induction l with
  | nil => intro h; simp [orderedInsertKey] at h; exact Or.inl h
  | cons y ys ih =>
    intro h
    simp only [orderedInsertKey] at h
    split at h
    · rcases List.mem_cons.mp h with h | h
      · exact Or.inl h
      · exact Or.inr h
    · rcases List.mem_cons.mp h with h | h
      · exact Or.inr (by simp [h])
      · rcases ih h with h | h
        · exact Or.inl h
        · exact Or.inr (List.mem_cons_of_mem y h)

theorem insertSorted_eq_oi (m : PyVal) : ∀ (acc : List PyVal),
    (pyAsNum (msgKey m)).isSome = true →
    (∀ y ∈ acc, (pyAsNum (msgKey y)).isSome = true) →
    insertSorted m acc = .ok (orderedInsertKey m acc)
  | [] => by intro _ _; rfl
  | y :: ys => by
    intro hm hacc
    obtain ⟨x, hx⟩ := Option.isSome_iff_exists.mp hm
    obtain ⟨yv, hyv⟩ := Option.isSome_iff_exists.mp (hacc y (List.mem_cons_self y ys))
    have hck : codeKey m = x := by simp [codeKey, hx]
    have hcky : codeKey y = yv := by simp [codeKey, hyv]
    have hrec := insertSorted_eq_oi m ys hm
      (fun z hz => hacc z (List.mem_cons_of_mem y hz))
    by_cases hlt : x < yv
    · simp [insertSorted, pyLtE_num hx hyv, orderedInsertKey, hlt, hck, hcky]
    · simp [insertSorted, pyLtE_num hx hyv, orderedInsertKey, hlt, hck, hcky, hrec]

theorem ascendingBy_tail {key : PyVal → Int} {y : PyVal} {ys : List PyVal}
    (h : ascendingBy key (y :: ys) = true) : ascendingBy key ys = true := by
  cases ys with
  | nil => rfl
  | cons z t =>
    simp only [ascendingBy, Bool.and_eq_true] at h
    exact h.2

theorem ascendingBy_head_le {key : PyVal → Int} :
    ∀ {ys : List PyVal} {y : PyVal}, ascendingBy key (y :: ys) = true →
      ∀ z ∈ y :: ys, key y ≤ key z := by
  intro ys
  induction ys with
  | nil =>
    intro y _ z hz
    simp at hz
    subst hz
    exact le_refl _
  | cons w t ih =>
    intro y h z hz
    simp only [ascendingBy, Bool.and_eq_true, decide_eq_true_eq] at h
    rcases List.mem_cons.mp hz with hz | hz
    · subst hz; exact le_refl _
    · have hwt : ascendingBy key (w :: t) = true := by
        simpa [ascendingBy] using h.2
      exact le_trans h.1 (ih hwt z hz)

theorem oi_sorted (m : PyVal) : ∀ l : List PyVal,
    ascendingBy codeKey l = true → ascendingBy codeKey (orderedInsertKey m l) = true := by
  intro l
  induction l with
  | nil => intro _; rfl
  | cons y ys ih =>
    intro hl
    simp only [orderedInsertKey]
    by_cases h : codeKey m < codeKey y
    · rw [if_pos h]
      simp only [ascendingBy, Bool.and_eq_true, decide_eq_true_eq]
      exact ⟨le_of_lt h, hl⟩
    · rw [if_neg h]
      have hym : codeKey y ≤ codeKey m := by omega
      cases ys with
      | nil =>
        simp [orderedInsertKey, ascendingBy, hym]
      | cons z t =>
        simp only [ascendingBy, Bool.and_eq_true, decide_eq_true_eq] at hl
        have ih2 := ih hl.2
        simp only [orderedInsertKey] at ih2 ⊢
        by_cases h2 : codeKey m < codeKey z
        · rw [if_pos h2] at ih2 ⊢
          simp only [ascendingBy, Bool.and_eq_true, decide_eq_true_eq] at ih2 ⊢
          exact ⟨hym, ih2⟩
        · rw [if_neg h2] at ih2 ⊢
          simp only [ascendingBy, Bool.and_eq_true, decide_eq_true_eq] at ih2 ⊢
          exact ⟨hl.1, ih2⟩

theorem oi_filter (m : PyVal) (k : Int) : ∀ l : List PyVal,
    ascendingBy codeKey l = true →
    (orderedInsertKey m l).filter (fun x => codeKey x == k) =
      (if codeKey m == k then l.filter (fun x => codeKey x == k) ++ [m]
       else l.filter (fun x => codeKey x == k)) := by
  intro l
  induction l with
  | nil =>
    intro _
    by_cases hk : codeKey m == k
    · simp [orderedInsertKey, List.filter_cons, hk]
    · simp only [Bool.not_eq_true] at hk
      simp [orderedInsertKey, List.filter_cons, hk]
  | cons y ys ih =>
    intro hl
    simp only [orderedInsertKey]
    by_cases h : codeKey m < codeKey y
    · rw [if_pos h]
      by_cases hk : codeKey m == k
      · have hkeq : codeKey m = k := by simpa using hk
        have hnil : (y :: ys).filter (fun x => codeKey x == k) = [] := by
          rw [List.filter_eq_nil_iff]
          intro z hz
          have := ascendingBy_head_le hl z hz
          have : k < codeKey z := by omega
          simp
          omega
        simp [List.filter_cons, hk, hnil]
      · simp only [Bool.not_eq_true] at hk
        simp [List.filter_cons, hk]
    · rw [if_neg h]
      have htail : ascendingBy codeKey ys = true := ascendingBy_tail hl
      have ih2 := ih htail
      by_cases hk : codeKey m == k
      · simp only [hk, if_true] at ih2 ⊢
        by_cases hky : codeKey y == k
        · simp [List.filter_cons, hky, ih2]
        · simp only [Bool.not_eq_true] at hky
          simp [List.filter_cons, hky, ih2]
      · simp only [Bool.not_eq_true] at hk
        simp only [hk, Bool.false_eq_true, if_false] at ih2 ⊢
        by_cases hky : codeKey y == k
        · simp [List.filter_cons, hky, ih2]
        · simp only [Bool.not_eq_true] at hky
          simp [List.filter_cons, hky, ih2]

theorem sortGo_spec (k : Int) : ∀ (ms acc : List PyVal),
    (∀ y ∈ ms, (pyAsNum (msgKey y)).isSome = true) →
    (∀ y ∈ acc, (pyAsNum (msgKey y)).isSome = true) →
    ascendingBy codeKey acc = true →
    ∃ l, sortGo ms acc = .ok l ∧ ascendingBy codeKey l = true ∧
      l.filter (fun x => codeKey x == k) =
        acc.filter (fun x => codeKey x == k) ++ ms.filter (fun x => codeKey x == k)
  | [], acc => by
    intro _ _ hs
    exact ⟨acc, rfl, hs, by simp⟩
  | m :: rest, acc => by
    intro hms hacc hs
    have hm := hms m (List.mem_cons_self m rest)
    have hins := insertSorted_eq_oi m acc hm hacc
    have hacc2 : ∀ y ∈ orderedInsertKey m acc, (pyAsNum (msgKey y)).isSome = true := by
      intro z hz
      rcases orderedInsertKey_mem hz with hz | hz
      · subst hz; exact hm
      · exact hacc z hz
    obtain ⟨l, hl, hsort, hfil⟩ := sortGo_spec k rest (orderedInsertKey m acc)
      (fun z hz => hms z (List.mem_cons_of_mem m hz)) hacc2 (oi_sorted m acc hs)
    refine ⟨l, ?_, hsort, ?_⟩
    · simp only [sortGo, hins]
      exact hl
    · rw [hfil, oi_filter m k acc hs]
      by_cases hk : codeKey m == k
      · simp [List.filter_cons, hk]
      · simp only [Bool.not_eq_true] at hk
        simp [List.filter_cons, hk]

/-- Claim C4 as amended: line 294 stable-sorts the Turns ascending by the
raw `create_time` field (absent or falsy sorts as 0) — not by the fully
resolved timestamp.  For numeric keys the sorted output is a permutation of
the input, ascending in that key, and stable (elements of any fixed key
keep their original relative order). -/
theorem claim_C4_amended (ms l : List PyVal) (k : Int)
    (hnum : ∀ y ∈ ms, (pyAsNum (msgKey y)).isSome = true)
    (hok : sortMessages ms = .ok l) :
    l.Perm ms ∧ ascendingBy codeKey l = true ∧
    l.filter (fun x => codeKey x == k) = ms.filter (fun x => codeKey x == k) := by
  obtain ⟨l', hl', hsort, hfil⟩ := sortGo_spec k ms []
    hnum (by simp) rfl
  rw [sortMessages, hl'] at hok
  injection hok with hok
  subst hok
  refine ⟨?_, hsort, by simpa using hfil⟩
  simpa using sortGo_ok_perm ms [] _ hl'

/-- Witness for C4 as amended, on two concrete messages. -/
theorem claim_C4_amended_witness :
    (∀ y ∈ [msgCt, msgAlt], (pyAsNum (msgKey y)).isSome = true) ∧
    sortMessages [msgCt, msgAlt] = .ok [msgAlt, msgCt] ∧
    ([msgAlt, msgCt].Perm [msgCt, msgAlt] ∧
      ascendingBy codeKey [msgAlt, msgCt] = true ∧
      [msgAlt, msgCt].filter (fun x => codeKey x == (0 : Int)) =
        [msgCt, msgAlt].filter (fun x => codeKey x == (0 : Int))) :=
  ⟨by decide, rfl, claim_C4_amended [msgCt, msgAlt] [msgAlt, msgCt] 0 (by decide) rfl⟩

/-- Counterexample for C4 as stated: a turn with only an alternate
`timestamp` field (resolved timestamp 100) sorts as key 0 and stays before
a turn whose `create_time` is 50, so the output is not ascending in the
resolved timestamps. -/
theorem claim_C4_counterexample :
    sortMessages [msgAlt, msgCt] = .ok [msgAlt, msgCt] ∧
    get_create_time_safely pdNone msgAlt = some 100 ∧
    get_create_time_safely pdNone msgCt = some 50 ∧
    ascendingBy (resolvedKey pdNone) [msgAlt, msgCt] = false :=
  ⟨rfl, rfl, rfl, rfl⟩

/-! ## C9 — the degenerate-output floor -/

/-- Claim C9: every written document has trimmed length at least 10; a
fully assembled document whose trimmed length is below the fixed floor is
discarded (`skipped`), never written. -/
theorem claim_C9_floor (ext : PyExt) (cfg : Config) (entry : PyVal) (fn c : Str)
    (h : processEntry ext cfg entry = .written fn c) :
    10 ≤ (strStrip c).length := by
  cases entry with
  | dict d =>
    simp only [processEntry] at h
    split at h
    · rename_i o ho
      rw [h] at ho
      simp only [processEntryE] at ho
      iterate 9
        split at ho <;> first
          | (injection ho with hoA; injection hoA; done)
          | (injection ho; done)
          | skip
      injection ho with ho
      injection ho with h1 h2
      subst h2
      omega
    · exact absurd h (by simp)
  | none => exact absurd h (by simp [processEntry])
  | bool b => exact absurd h (by simp [processEntry])
  | int n => exact absurd h (by simp [processEntry])
  | str s => exact absurd h (by simp [processEntry])
  | list xs => exact absurd h (by simp [processEntry])

/-- Witness for C9: a concrete entry that is actually written, whose
trimmed content length is at least the floor. -/
theorem claim_C9_floor_witness :
    processEntry extFix cfgFix entryGood =
      .written ("Hello.md".data)
        ("# Hello\n\n<sub>Conversation ID: unknown</sub>\n\n**User**: Hello world\n\n".data) ∧
    10 ≤ (strStrip
      ("# Hello\n\n<sub>Conversation ID: unknown</sub>\n\n**User**: Hello world\n\n".data)).length :=
  ⟨rfl, claim_C9_floor extFix cfgFix entryGood _ _ rfl⟩

/-! ## C2 — the year filter -/

theorem truthy_of_num_pos : ∀ {v : PyVal} {u : Int}, pyAsNum v = some u → 0 < u →
    v.truthy = true
  | .bool b, u => by
    intro h hu
    cases b
    · simp [pyAsNum] at h
      omega
    · simp [PyVal.truthy]
  | .int n, u => by
    intro h hu
    simp [pyAsNum] at h
    subst h
    simp [PyVal.truthy]
    omega
  | .none, u => by intro h _; simp [pyAsNum] at h
  | .str s, u => by intro h _; simp [pyAsNum] at h
  | .list xs, u => by intro h _; simp [pyAsNum] at h
  | .dict xs, u => by intro h _; simp [pyAsNum] at h

theorem tsOf_some_of_pos {v : PyVal} {u : Int} (h : pyAsNum v = some u) (hu : 0 < u) :
    tsOf v = some u := by
  simp [tsOf, h, truthy_of_num_pos h hu, hu]

theorem tsOf_none_no_pos {v : PyVal} (h : ∀ u, pyAsNum v = some u → ¬0 < u) :
    tsOf v = Option.none := by
  cases hn : pyAsNum v with
  | none => simp [tsOf, hn]
  | some u =>
    have hle := h u hn
    simp [tsOf, hn, hle]

theorem tsOf_int_pos {t : Int} (h : 0 < t) : tsOf (.int t) = some t :=
  tsOf_some_of_pos rfl h

theorem convTsOf_some {v : PyVal} {t : Int} (h : convTsOf v = some t) :
    pyAsNum v = some t ∧ 0 < t := by
  unfold convTsOf at h
  split at h
  · rename_i w hw
    split at h
    · rename_i hpos
      injection h with h
      subst h
      exact ⟨hw, hpos⟩
    · exact absurd h (by simp)
  · exact absurd h (by simp)

theorem convTsOf_none {v : PyVal} (h : convTsOf v = Option.none) :
    ∀ w, pyAsNum v = some w → ¬0 < w := by
  unfold convTsOf at h
  split at h
  · rename_i w' hw'
    split at h
    · exact absurd h (by simp)
    · rename_i hpos'
      intro w hw hpos
      rw [hw] at hw'
      injection hw' with hww
      subst hww
      exact hpos' hpos
  · rename_i hwnone
    intro w hw hpos
    rw [hw] at hwnone
    exact absurd hwnone (by simp)

/-- The fallback ("re-check") leg of the year filter: when the
conversation-level timestamp yields no positive epoch but the earliest
sorted turn resolves to a pre-cutoff positive epoch, the entry is never
written. -/
theorem claim_C2_fallback (ext : PyExt) (cfg : Config) (d : List (Str × PyVal)) (t : Int)
    (h2 : 0 < t) (h3 : ext.yearOf t < cfg.filterBeforeYear)
    (mm : List (Str × PyVal)) (m0 : PyVal) (rest : List PyVal)
    (hmapeq : pyGetD d ("mapping".data) (.dict []) = .dict mm)
    (hsorteq : sortMessages (collectMessages mm) = .ok (m0 :: rest))
    (hres : get_create_time_safely ext.parseDate m0 = some t)
    (hnopos : ∀ w, pyAsNum (resolveConvTime ext.parseDate
      (dget d ("create_time".data))) = some w → ¬0 < w) :
    (processEntry ext cfg (.dict d)).isWritten = false := by
  have hearly : skipOldCheck ext cfg
      (resolveConvTime ext.parseDate (dget d ("create_time".data))) = false := by
    simp [skipOldCheck, tsOf_none_no_pos hnopos]
  have hperm := sortGo_ok_perm (collectMessages mm) [] (m0 :: rest) hsorteq
  have hne : (collectMessages mm).isEmpty = false := by
    have hlen := hperm.length_eq
    simp only [List.nil_append] at hlen
    cases hc : collectMessages mm with
    | nil => rw [hc] at hlen; simp at hlen
    | cons a b => simp
  have hmmne : mm ≠ [] := by
    intro hc
    subst hc
    simp [collectMessages] at hne
  have htruthy : (PyVal.dict mm).truthy = true := by
    simp [PyVal.truthy, hmmne]
  have hskip2 : skipOldCheck ext cfg (.int t) = true := by
    simp [skipOldCheck, tsOf_int_pos h2, h3]
  by_cases htr : (resolveConvTime ext.parseDate (dget d ("create_time".data))).truthy
  · cases hn2 : pyAsNum (resolveConvTime ext.parseDate (dget d ("create_time".data))) with
    | some n =>
      have hle : n ≤ 0 := by
        have := hnopos n hn2
        omega
      have hfct : finalCreateTime
          (resolveConvTime ext.parseDate (dget d ("create_time".data))) (some t) =
          .ok (.int t) := by
        simp [finalCreateTime, htr, hn2, hle]
      simp [processEntry, processEntryE, hearly, hmapeq, htruthy, hne, hsorteq, hres,
        hfct, hskip2, Outcome.isWritten]
    | none =>
      have hfct : finalCreateTime
          (resolveConvTime ext.parseDate (dget d ("create_time".data))) (some t) =
          .error () := by
        simp [finalCreateTime, htr, hn2]
      simp [processEntry, processEntryE, hearly, hmapeq, htruthy, hne, hsorteq, hres,
        hfct, Outcome.isWritten]
  · have hfct : finalCreateTime
        (resolveConvTime ext.parseDate (dget d ("create_time".data))) (some t) =
        .ok (.int t) := by
      simp only [Bool.not_eq_true] at htr
      simp [finalCreateTime, htr]
    simp [processEntry, processEntryE, hearly, hmapeq, htruthy, hne, hsorteq, hres,
      hfct, hskip2, Outcome.isWritten]

/-- Claim C2: a conversation whose best available timestamp (the
conversation-level one when it resolves to a positive epoch, else the
earliest turn's resolved timestamp) is a positive epoch whose year is
before `filter_before_year` is never written — the check is applied early
and re-applied after turn-level resolution settles. -/
theorem claim_C2_year_filter (ext : PyExt) (cfg : Config) (entry : PyVal) (t : Int)
    (h1 : claimResolvedTs ext entry = some t) (h2 : 0 < t)
    (h3 : ext.yearOf t < cfg.filterBeforeYear) :
    (processEntry ext cfg entry).isWritten = false := by
  cases entry with
  | dict d =>
    simp only [claimResolvedTs] at h1
    split at h1
    · rename_i t' heq
      injection h1 with h1
      subst h1
      obtain ⟨hnum, hpos⟩ := convTsOf_some heq
      have hskip : skipOldCheck ext cfg
          (resolveConvTime ext.parseDate (dget d ("create_time".data))) = true := by
        simp [skipOldCheck, tsOf_some_of_pos hnum hpos, h3]
      simp [processEntry, processEntryE, hskip, Outcome.isWritten]
    · rename_i heq
      have hnopos := convTsOf_none heq
      simp only [turnFallbackTs] at h1
      split at h1
      · rename_i mm hmapeq
        split at h1
        · rename_i sorted m0 rest hsorteq
          exact claim_C2_fallback ext cfg d t h2 h3 mm m0 rest hmapeq hsorteq h1 hnopos
        · exact absurd h1 (by simp)
      · exact absurd h1 (by simp)
  | none => simp [processEntry, Outcome.isWritten]
  | bool b => simp [processEntry, Outcome.isWritten]
  | int n => simp [processEntry, Outcome.isWritten]
  | str s => simp [processEntry, Outcome.isWritten]
  | list xs => simp [processEntry, Outcome.isWritten]

/-- Witness for C2 as amended: a conversation-level epoch of 5 (year 2019
under `extFix`) with cutoff 2025 is not written. -/
theorem claim_C2_year_filter_witness :
    claimResolvedTs extFix entryOld = some 5 ∧ (0 : Int) < 5 ∧
    extFix.yearOf 5 < cfgFix.filterBeforeYear ∧
    (processEntry extFix cfgFix entryOld).isWritten = false :=
  ⟨rfl, by decide, by decide,
    claim_C2_year_filter extFix cfgFix entryOld 5 rfl (by decide) (by decide)⟩

/-- Counterexample for C2 as stated: a record whose only timestamp is a
turn-level date string resolving to the negative epoch `-100` (year 1969,
before the cutoff 2025) is nevertheless written, because the code's guards
demand a strictly positive epoch. -/
theorem claim_C2_counterexample :
    claimResolvedTs extNeg entryNeg = some (-100) ∧
    extNeg.yearOf (-100) < cfgFix.filterBeforeYear ∧
    (processEntry extNeg cfgFix entryNeg).isWritten = true :=
  ⟨rfl, by decide, rfl⟩

/-! ## C10 — records with no resolvable timestamp -/

theorem renderMessage_update (cfg : Config) (y2 : Int) (m : PyVal) :
    renderMessage { cfg with filterBeforeYear := y2 } m = renderMessage cfg m := by
  cases m <;> rfl

theorem renderedMessages_update (cfg : Config) (y2 : Int) (ms : List PyVal) :
    renderedMessages { cfg with filterBeforeYear := y2 } ms = renderedMessages cfg ms := by
  unfold renderedMessages
  have hfun : renderMessage { cfg with filterBeforeYear := y2 } = renderMessage cfg := by
    funext m
    exact renderMessage_update cfg y2 m
  rw [hfun]

/-- With no validated creation timestamp, the assembled document does not
depend on the date-rendering collaborators or on the cutoff year. -/
theorem assembleContent_none_indep (e1 e2 : PyExt) (cfg : Config) (y2 : Int)
    (ds ttl : Str) (cid : PyVal) (ms : List PyVal) :
    assembleContent e2 { cfg with filterBeforeYear := y2 } ds ttl cid PyVal.none ms =
      assembleContent e1 cfg ds ttl cid PyVal.none ms := by
  simp only [assembleContent, renderedMessages_update]
  rfl

/-- Shared tail of the no-timestamp argument, once the final create time
has settled to `None`. -/
theorem noTs_tail (pd : Str → Option Int) (yo yo' : Int → Int)
    (fd fd' : Int → Option Str) (fdt fdt' : Int → Str) (cfg : Config) (y' : Int)
    (d mm : List (Str × PyVal)) (m0 : PyVal) (rest : List PyVal)
    (hearlyK : ∀ (e2 : PyExt) (c2 : Config),
      skipOldCheck e2 c2 (resolveConvTime pd (dget d ("create_time".data))) = false)
    (hskN : ∀ (e2 : PyExt) (c2 : Config), skipOldCheck e2 c2 PyVal.none = false)
    (hmds : ∀ e2 : PyExt, mkDateStr e2 PyVal.none = [])
    (htru : (PyVal.dict mm).truthy = true)
    (hmp : pyGetD d ("mapping".data) (.dict []) = .dict mm)
    (hemp : (collectMessages mm).isEmpty = false)
    (hsrt : sortMessages (collectMessages mm) = .ok (m0 :: rest))
    (hmct : get_create_time_safely pd m0 = Option.none)
    (hfct : finalCreateTime (resolveConvTime pd (dget d ("create_time".data)))
      Option.none = .ok PyVal.none) :
    processEntry ⟨pd, yo, fd, fdt⟩ cfg (.dict d) =
      processEntry ⟨pd, yo', fd', fdt'⟩ { cfg with filterBeforeYear := y' } (.dict d) ∧
    processEntry ⟨pd, yo, fd, fdt⟩ cfg (.dict d) ≠ .skippedOld := by
  cases hti : getTitle (pyGetD d ("title".data) (.str [])) (some m0) with
  | error e =>
    constructor
    · simp [processEntry, processEntryE, hearlyK, hskN, hmds, htru, hmp, hemp, hsrt,
        hmct, hfct, hti]
    · simp [processEntry, processEntryE, hearlyK, hskN, hmds, htru, hmp, hemp, hsrt,
        hmct, hfct, hti]
  | ok ttl =>
    have hE1 : processEntryE ⟨pd, yo, fd, fdt⟩ cfg d =
        (if (strStrip (assembleContent ⟨pd, yo, fd, fdt⟩ cfg [] ttl
            (pyGetD d ("id".data) (.str ("unknown".data))) PyVal.none
            (m0 :: rest))).length < 10
         then Except.ok Outcome.skipped
         else Except.ok (Outcome.written (mkFileName [] ttl)
           (assembleContent ⟨pd, yo, fd, fdt⟩ cfg [] ttl
             (pyGetD d ("id".data) (.str ("unknown".data))) PyVal.none (m0 :: rest)))) := by
      simp [processEntryE, hearlyK, htru, hmp, hemp, hsrt, hmct, hfct, hti, hmds, hskN]
    have hCC : assembleContent ⟨pd, yo', fd', fdt'⟩ { cfg with filterBeforeYear := y' }
        [] ttl (pyGetD d ("id".data) (.str ("unknown".data))) PyVal.none (m0 :: rest) =
        assembleContent ⟨pd, yo, fd, fdt⟩ cfg [] ttl
          (pyGetD d ("id".data) (.str ("unknown".data))) PyVal.none (m0 :: rest) :=
      assembleContent_none_indep ⟨pd, yo, fd, fdt⟩ ⟨pd, yo', fd', fdt'⟩ cfg y' [] ttl _ _
    have hE2 : processEntryE ⟨pd, yo', fd', fdt'⟩ { cfg with filterBeforeYear := y' } d =
        (if (strStrip (assembleContent ⟨pd, yo, fd, fdt⟩ cfg [] ttl
            (pyGetD d ("id".data) (.str ("unknown".data))) PyVal.none
            (m0 :: rest))).length < 10
         then Except.ok Outcome.skipped
         else Except.ok (Outcome.written (mkFileName [] ttl)
           (assembleContent ⟨pd, yo, fd, fdt⟩ cfg [] ttl
             (pyGetD d ("id".data) (.str ("unknown".data))) PyVal.none (m0 :: rest)))) := by
      simp [processEntryE, hearlyK, htru, hmp, hemp, hsrt, hmct, hfct, hti, hmds, hskN, hCC]
    constructor
    · simp only [processEntry, hE1, hE2]
    · simp only [processEntry, hE1]
      by_cases hlen : (strStrip (assembleContent ⟨pd, yo, fd, fdt⟩ cfg [] ttl
          (pyGetD d ("id".data) (.str ("unknown".data))) PyVal.none
          (m0 :: rest))).length < 10
      · simp [hlen]
      · simp [hlen]

/-- Claim C10: for a record for which no timestamp resolves at all, the
year filter never fires — the outcome does not depend on
`filter_before_year` nor on any of the date-rendering collaborators
(`yearOf`, `fmtDate`, `fmtDateTime`), so no date prefix can appear in the
header or the file name — and the record is never counted as
"skipped, too old". -/
theorem claim_C10_no_timestamp (pd : Str → Option Int) (yo yo' : Int → Int)
    (fd fd' : Int → Option Str) (fdt fdt' : Int → Str) (cfg : Config) (y' : Int)
    (entry : PyVal)
    (h : noTimestampEntry ⟨pd, yo, fd, fdt⟩ entry) :
    processEntry ⟨pd, yo, fd, fdt⟩ cfg entry =
      processEntry ⟨pd, yo', fd', fdt'⟩ { cfg with filterBeforeYear := y' } entry ∧
    processEntry ⟨pd, yo, fd, fdt⟩ cfg entry ≠ .skippedOld := by
  cases entry with
  | dict d =>
    obtain ⟨hres, hturnRaw⟩ := h
    simp only [claimResolvedTs] at hres
    split at hres
    · exact absurd hres (by simp)
    · rename_i hconv
      have hnopos := convTsOf_none hconv
      have hearlyK : ∀ (e2 : PyExt) (c2 : Config),
          skipOldCheck e2 c2 (resolveConvTime pd (dget d ("create_time".data))) = false :=
        fun e2 c2 => by simp [skipOldCheck, tsOf_none_no_pos hnopos]
      have hskN : ∀ (e2 : PyExt) (c2 : Config), skipOldCheck e2 c2 PyVal.none = false :=
        fun _ _ => rfl
      have hmds : ∀ e2 : PyExt, mkDateStr e2 PyVal.none = [] := fun _ => rfl
      by_cases htru : (pyGetD d ("mapping".data) (.dict [])).truthy
      · cases hmp : pyGetD d ("mapping".data) (.dict []) with
        | dict mm =>
          rw [hmp] at htru
          have hturn : ∀ m ∈ collectMessages mm,
              get_create_time_safely pd m = Option.none := by
            have h2 : (match pyGetD d ("mapping".data) (.dict []) with
                | PyVal.dict mm => ∀ m ∈ collectMessages mm,
                    get_create_time_safely pd m = Option.none
                | _ => True) := hturnRaw
            rw [hmp] at h2
            exact h2
          cases hemp : (collectMessages mm).isEmpty with
          | true =>
            constructor
            · simp [processEntry, processEntryE, hearlyK, htru, hmp, hemp]
            · simp [processEntry, processEntryE, hearlyK, htru, hmp, hemp]
          | false =>
            cases hsrt : sortMessages (collectMessages mm) with
            | error e =>
              constructor
              · simp [processEntry, processEntryE, hearlyK, htru, hmp, hemp, hsrt]
              · simp [processEntry, processEntryE, hearlyK, htru, hmp, hemp, hsrt]
            | ok sorted =>
              cases sorted with
              | nil =>
                exfalso
                have hperm := sortGo_ok_perm (collectMessages mm) [] [] hsrt
                have hcempty : collectMessages mm = [] := by
                  have h0 := hperm.length_eq
                  simp only [List.nil_append, List.length_nil] at h0
                  exact List.length_eq_zero.mp h0.symm
                rw [hcempty] at hemp
                simp at hemp
              | cons m0 rest =>
                have hm0mem : m0 ∈ collectMessages mm := by
                  have hperm := sortGo_ok_perm (collectMessages mm) [] (m0 :: rest) hsrt
                  have hm : m0 ∈ (m0 :: rest) := List.mem_cons_self _ _
                  simpa using hperm.mem_iff.mp hm
                have hmct : get_create_time_safely pd m0 = Option.none :=
                  hturn m0 hm0mem
                by_cases htr : (resolveConvTime pd (dget d ("create_time".data))).truthy
                · cases hn2 : pyAsNum (resolveConvTime pd (dget d ("create_time".data))) with
                  | some n =>
                    have hle : n ≤ 0 := by
                      have := hnopos n hn2
                      omega
                    have hfct : finalCreateTime
                        (resolveConvTime pd (dget d ("create_time".data))) Option.none =
                        .ok PyVal.none := by
                      simp [finalCreateTime, htr, hn2, hle]
                    exact noTs_tail pd yo yo' fd fd' fdt fdt' cfg y' d mm m0 rest
                      hearlyK hskN hmds htru hmp hemp hsrt hmct hfct
                  | none =>
                    have hfct : finalCreateTime
                        (resolveConvTime pd (dget d ("create_time".data))) Option.none =
                        .error () := by
                      simp [finalCreateTime, htr, hn2]
                    constructor
                    · simp [processEntry, processEntryE, hearlyK, htru, hmp, hemp, hsrt,
                        hmct, hfct]
                    · simp [processEntry, processEntryE, hearlyK, htru, hmp, hemp, hsrt,
                        hmct, hfct]
                · have hfct : finalCreateTime
                      (resolveConvTime pd (dget d ("create_time".data))) Option.none =
                      .ok PyVal.none := by
                    simp only [Bool.not_eq_true] at htr
                    simp [finalCreateTime, htr]
                  exact noTs_tail pd yo yo' fd fd' fdt fdt' cfg y' d mm m0 rest
                    hearlyK hskN hmds htru hmp hemp hsrt hmct hfct
        | none =>
          rw [hmp] at htru
          constructor
          · simp [processEntry, processEntryE, hearlyK, htru, hmp]
          · simp [processEntry, processEntryE, hearlyK, htru, hmp]
        | bool b =>
          rw [hmp] at htru
          constructor
          · simp [processEntry, processEntryE, hearlyK, htru, hmp]
          · simp [processEntry, processEntryE, hearlyK, htru, hmp]
        | int n =>
          rw [hmp] at htru
          constructor
          · simp [processEntry, processEntryE, hearlyK, htru, hmp]
          · simp [processEntry, processEntryE, hearlyK, htru, hmp]
        | str s =>
          rw [hmp] at htru
          constructor
          · simp [processEntry, processEntryE, hearlyK, htru, hmp]
          · simp [processEntry, processEntryE, hearlyK, htru, hmp]
        | list xs =>
          rw [hmp] at htru
          constructor
          · simp [processEntry, processEntryE, hearlyK, htru, hmp]
          · simp [processEntry, processEntryE, hearlyK, htru, hmp]
      · simp only [Bool.not_eq_true] at htru
        constructor
        · simp [processEntry, processEntryE, hearlyK, htru]
        · simp [processEntry, processEntryE, hearlyK, htru]
  | none => constructor <;> simp [processEntry]
  | bool b => constructor <;> simp [processEntry]
  | int n => constructor <;> simp [processEntry]
  | str s => constructor <;> simp [processEntry]
  | list xs => constructor <;> simp [processEntry]

/-- Witness for C10: a concrete record with no timestamp anywhere is
processed identically under two different cutoffs and date collaborators,
and is not skipped as too old. -/
theorem claim_C10_no_timestamp_witness :
    noTimestampEntry
      ⟨pdNone, fun _ => 2019, fun _ => some ("2019-01-01".data), fun _ => "x".data⟩
      entryNoTs ∧
    (processEntry
        ⟨pdNone, fun _ => 2019, fun _ => some ("2019-01-01".data), fun _ => "x".data⟩
        cfgFix entryNoTs =
      processEntry ⟨pdNone, fun _ => 1999, fun _ => Option.none, fun _ => "y".data⟩
        { cfgFix with filterBeforeYear := 1900 } entryNoTs ∧
     processEntry
        ⟨pdNone, fun _ => 2019, fun _ => some ("2019-01-01".data), fun _ => "x".data⟩
        cfgFix entryNoTs ≠ .skippedOld) :=
  have hturn : ∀ m ∈ collectMessages entryNoTsMapping,
      get_create_time_safely pdNone m = Option.none := by decide
  ⟨⟨rfl, hturn⟩,
    claim_C10_no_timestamp pdNone (fun _ => 2019) (fun _ => 1999)
      (fun _ => some ("2019-01-01".data)) (fun _ => Option.none)
      (fun _ => "x".data) (fun _ => "y".data) cfgFix 1900 entryNoTs ⟨rfl, hturn⟩⟩

/-! ## C1 — segmenter partition -/

theorem splitMarkerAux_ne_nil : ∀ (fuel : Nat) (s : Str), splitMarkerAux fuel s ≠ []
  | 0, s => by simp [splitMarkerAux]
  | fuel + 1, s => by
    simp only [splitMarkerAux]
    split <;> simp

theorem splitMarkerAux_join : ∀ (fuel : Nat) (s : Str),
    joinSep turnSep (splitMarkerAux fuel s) = s
  | 0, s => rfl
  | fuel + 1, s => by
    simp only [splitMarkerAux]
    cases hf : strFindFrom s turnSep 0 with
    | none => rfl
    | some j =>
      have hrec := splitMarkerAux_join fuel (s.drop (j + turnSep.length))
      rw [joinSep_cons _ _ _ (splitMarkerAux_ne_nil fuel _), hrec]
      have hocc : strStarts (s.drop j) turnSep = true := by
        unfold strFindFrom at hf
        rw [List.drop_zero] at hf
        obtain ⟨_, h2⟩ := findSubAux_some turnSep s 0 j hf
        simpa using h2
      exact (strStarts_splice hocc).symm

theorem splitMarker_join (s : Str) : joinSep turnSep (splitMarker s) = s :=
  splitMarkerAux_join (s.length + 1) s

theorem pyFind_found (s sub : Str) (cur : Int) (k : Nat) (hc : 0 ≤ cur)
    (hck : cur ≤ (k : Int)) (hk : k ≤ s.length)
    (hocc : strStarts (s.drop k) sub = true) :
    cur ≤ pyFind s sub cur ∧ pyFind s sub cur ≤ (k : Int) := by
  have hlt : ¬cur < 0 := by omega
  have hguard : ¬((s.length : Int) < cur) := by omega
  have hcn : (cur.toNat : Int) = cur := Int.toNat_of_nonneg hc
  have hcnk : cur.toNat ≤ k := by omega
  have hrel : strStarts ((s.drop cur.toNat).drop (k - cur.toNat)) sub = true := by
    rw [List.drop_drop]
    have h2 : cur.toNat + (k - cur.toNat) = k := by omega
    rw [h2]
    exact hocc
  obtain ⟨r, hr, hrle⟩ :=
    findSubAux_complete sub (s.drop cur.toNat) cur.toNat (k - cur.toNat) hrel
  obtain ⟨hr1, _⟩ := findSubAux_some sub (s.drop cur.toNat) cur.toNat r hr
  simp only [pyFind, if_neg hlt, if_neg hguard, hr]
  constructor
  · omega
  · omega

theorem pyFind_contains (t p : Str) (h : strContains t p = true) (hp : p ≠ []) :
    0 ≤ pyFind t p 0 ∧ pyFind t p 0 < (t.length : Int) := by
  unfold strContains strFindFrom at h
  rw [List.drop_zero] at h
  obtain ⟨r, hr⟩ := Option.isSome_iff_exists.mp h
  obtain ⟨_, hocc⟩ := findSubAux_some p t 0 r hr
  simp only [Nat.sub_zero] at hocc
  have hlen := strStarts_length hocc
  rw [List.length_drop] at hlen
  have hplen : 1 ≤ p.length := List.length_pos.mpr hp
  have hrlen : r < t.length := by omega
  have h0 : ¬((0 : Int) < 0) := by omega
  have hg : ¬((t.length : Int) < 0) := by omega
  simp only [pyFind, if_neg h0, if_neg hg, Int.toNat_zero, List.drop_zero, hr]
  omega

theorem topicPhrases_ne : ∀ p ∈ topicPhrases, p ≠ [] := by decide

theorem drop_append_of_drop_eq {s a b : Str} {k : Nat} (h : s.drop k = a ++ b) :
    s.drop (k + a.length) = b := by
  have h2 : s.drop (k + a.length) = (s.drop k).drop a.length := (List.drop_drop _ _ _).symm
  rw [h2, h, List.drop_left]

theorem strLower_length (msg : Str) : (strLower msg).length = msg.length := by
  simp [strLower]

theorem detectAux_props (s : Str) : ∀ (cs : List Str) (k : Nat) (cur : Int) (first : Bool),
    0 ≤ cur → cur ≤ (k : Int) → k ≤ s.length →
    s.drop k = joinSep turnSep cs →
    (∀ t ∈ detectAux s cs first cur, cur ≤ t) ∧
      List.Chain' (· < ·) (detectAux s cs first cur)
  | [], k, cur, first => by
    intro _ _ _ _
    simp [detectAux]
  | msg :: rest, k, cur, first => by
    intro hc hck hk hlay
    have hocc : strStarts (s.drop k) msg = true := by
      cases rest with
      | nil =>
        rw [hlay]
        exact strStarts_refl msg
      | cons r0 rs =>
        rw [hlay, joinSep_cons _ _ _ (by simp), List.append_assoc]
        exact strStarts_append msg _
    have hfb := pyFind_found s msg cur k hc hck hk hocc
    have hrest : (∀ t ∈ detectAux s rest false (pyFind s msg cur + (msg.length : Int)),
        pyFind s msg cur + (msg.length : Int) ≤ t) ∧
        List.Chain' (· < ·) (detectAux s rest false (pyFind s msg cur + (msg.length : Int))) := by
      cases rest with
      | nil =>
        constructor
        · intro t ht
          simp [detectAux] at ht
        · simp [detectAux]
      | cons r0 rs =>
        have hlay2 : s.drop k = msg ++ (turnSep ++ joinSep turnSep (r0 :: rs)) := by
          rw [hlay, joinSep_cons _ _ _ (by simp), List.append_assoc]
        have h1 := drop_append_of_drop_eq hlay2
        have h2 := drop_append_of_drop_eq h1
        have hlendrop : (s.drop k).length = s.length - k := List.length_drop _ _
        rw [hlay2] at hlendrop
        simp only [List.length_append] at hlendrop
        apply detectAux_props s (r0 :: rs) (k + msg.length + turnSep.length)
          (pyFind s msg cur + (msg.length : Int)) false
        · omega
        · push_cast
          omega
        · omega
        · exact h2
    cases first with
    | true =>
      simp only [detectAux, if_true]
      constructor
      · intro t ht
        have := hrest.1 t ht
        omega
      · exact hrest.2
    | false =>
      simp only [detectAux, Bool.false_eq_true, if_false]
      cases hph : topicPhrases.find? (fun p => strContains (strLower msg) p) with
      | none =>
        simp only [hph]
        constructor
        · intro t ht
          have := hrest.1 t ht
          omega
        · exact hrest.2
      | some phrase =>
        have hcont : strContains (strLower msg) phrase = true := by
          simpa using List.find?_some hph
        have hmem := List.mem_of_find?_eq_some hph
        have hpne : phrase ≠ [] := topicPhrases_ne phrase hmem
        obtain ⟨hip0, hiplt⟩ := pyFind_contains (strLower msg) phrase hcont hpne
        rw [strLower_length] at hiplt
        simp only [hph]
        constructor
        · intro t ht
          simp only [List.mem_cons] at ht
          rcases ht with rfl | ht
          · omega
          · have := hrest.1 t ht
            omega
        · apply List.chain'_cons'.mpr
          constructor
          · intro b hb
            have hbmem := List.mem_of_mem_head? hb
            have := hrest.1 b hbmem
            omega
          · exact hrest.2

theorem detect_sorted (s : Str) :
    (∀ t ∈ detect_topic_transitions s, 0 ≤ t) ∧
      List.Chain' (· < ·) (detect_topic_transitions s) := by
  have h := detectAux_props s (splitMarker s) 0 0 true (by omega) (by omega)
    (by omega) (by rw [List.drop_zero, splitMarker_join])
  exact ⟨fun t ht => h.1 t ht, h.2⟩

theorem strRfindAux_some (s sub : Str) : ∀ (j0 j : Nat), strRfindAux s sub j0 = some j →
    j ≤ j0 ∧ strStarts (s.drop j) sub = true
  | 0, j => by
    intro h
    simp only [strRfindAux] at h
    split at h
    · rename_i hs
      injection h with h
      subst h
      exact ⟨le_refl _, by simpa using hs⟩
    · exact absurd h (by simp)
  | j0 + 1, j => by
    intro h
    simp only [strRfindAux] at h
    split at h
    · rename_i hs
      injection h with h
      subst h
      exact ⟨le_refl _, hs⟩
    · obtain ⟨h1, h2⟩ := strRfindAux_some s sub j0 j h
      exact ⟨by omega, h2⟩

theorem strRfindAux_mono (s sub : Str) : ∀ (j1 j0 : Nat), j0 ≤ j1 →
    ∀ j, strRfindAux s sub j0 = some j →
    ∃ j', strRfindAux s sub j1 = some j' ∧ j ≤ j' := by
  intro j1
  induction j1 with
  | zero =>
    intro j0 hle j h
    have : j0 = 0 := by omega
    subst this
    exact ⟨j, h, le_refl _⟩
  | succ j1 ih =>
    intro j0 hle j h
    by_cases heq : j0 = j1 + 1
    · subst heq
      exact ⟨j, h, le_refl _⟩
    · have : j0 ≤ j1 := by omega
      obtain ⟨j', hj', hle2⟩ := ih j0 this j h
      simp only [strRfindAux]
      split
      · rename_i hs
        refine ⟨j1 + 1, rfl, ?_⟩
        have := (strRfindAux_some s sub j1 j' hj').1
        omega
      · exact ⟨j', hj', hle2⟩

theorem clampIdx_le (len : Nat) (i : Int) : clampIdx len i ≤ len := by
  unfold clampIdx
  split <;> omega

theorem pyRfindEnd_cases (s sub : Str) (e : Int) :
    pyRfindEnd s sub e = -1 ∨
    (0 ≤ pyRfindEnd s sub e ∧
      strStarts (s.drop (pyRfindEnd s sub e).toNat) sub = true ∧
      (pyRfindEnd s sub e).toNat + sub.length ≤ s.length) := by
  have hcl := clampIdx_le s.length e
  by_cases hle : sub.length ≤ clampIdx s.length e
  · cases ha : strRfindAux s sub (clampIdx s.length e - sub.length) with
    | none =>
      left
      unfold pyRfindEnd
      rw [if_pos hle, ha]
    | some j =>
      right
      have heq : pyRfindEnd s sub e = (j : Int) := by
        unfold pyRfindEnd
        rw [if_pos hle, ha]
      obtain ⟨hj, hocc⟩ := strRfindAux_some s sub _ j ha
      rw [heq]
      refine ⟨by omega, ?_, ?_⟩
      · simpa using hocc
      · simp only [Int.toNat_natCast]
        omega
  · left
    unfold pyRfindEnd
    rw [if_neg hle]

theorem clampIdx_mono_nonneg (len : Nat) {e e' : Int} (h0 : 0 ≤ e) (h : e ≤ e') :
    clampIdx len e ≤ clampIdx len e' := by
  unfold clampIdx
  have h1 : ¬e < 0 := by omega
  have h2 : ¬e' < 0 := by omega
  rw [if_neg h1, if_neg h2]
  have : e.toNat ≤ e'.toNat := by omega
  omega

theorem pyRfindEnd_mono (s sub : Str) {e e' : Int} (h0 : 0 ≤ e) (h : e ≤ e') :
    pyRfindEnd s sub e ≤ pyRfindEnd s sub e' := by
  have hclamp := clampIdx_mono_nonneg s.length h0 h
  by_cases hle : sub.length ≤ clampIdx s.length e
  · have hle' : sub.length ≤ clampIdx s.length e' := le_trans hle hclamp
    cases ha : strRfindAux s sub (clampIdx s.length e - sub.length) with
    | none =>
      have heqL : pyRfindEnd s sub e = -1 := by
        unfold pyRfindEnd
        rw [if_pos hle, ha]
      rw [heqL]
      rcases pyRfindEnd_cases s sub e' with hR | ⟨hR0, _, _⟩ <;> omega
    | some j =>
      have heqL : pyRfindEnd s sub e = (j : Int) := by
        unfold pyRfindEnd
        rw [if_pos hle, ha]
      have hsub : clampIdx s.length e - sub.length ≤ clampIdx s.length e' - sub.length := by
        omega
      obtain ⟨j', hj', hle2⟩ := strRfindAux_mono s sub _ _ hsub j ha
      have heqR : pyRfindEnd s sub e' = (j' : Int) := by
        unfold pyRfindEnd
        rw [if_pos hle', hj']
      rw [heqL, heqR]
      exact_mod_cast hle2
  · have heqL : pyRfindEnd s sub e = -1 := by
      unfold pyRfindEnd
      rw [if_neg hle]
    rw [heqL]
    rcases pyRfindEnd_cases s sub e' with hR | ⟨hR0, _, _⟩ <;> omega

theorem cutPoint_le (s : Str) (t : Int) : cutPoint s t ≤ s.length := by
  unfold cutPoint
  rcases pyRfindEnd_cases s turnSep t with hc | ⟨h0, hocc, hbound⟩
  · simp [hc]
  · have hne : pyRfindEnd s turnSep t ≠ -1 := by omega
    simp only [hne, if_false]
    omega

theorem cutPoint_mono (s : Str) {t t' : Int} (h0 : 0 ≤ t) (h : t ≤ t') :
    cutPoint s t ≤ cutPoint s t' := by
  unfold cutPoint
  have hm := pyRfindEnd_mono s turnSep h0 h
  rcases pyRfindEnd_cases s turnSep t with hL | ⟨hL0, _, _⟩
  · simp [hL]
  · have hLne : pyRfindEnd s turnSep t ≠ -1 := by omega
    have hR0 : (0 : Int) ≤ pyRfindEnd s turnSep t' := by omega
    have hRne : pyRfindEnd s turnSep t' ≠ -1 := by omega
    simp only [hLne, hRne, if_false]
    omega

theorem take_drop_append (s : Str) {n m : Nat} (h : n ≤ m) :
    (s.take m).drop n ++ s.drop m = s.drop n := by
  conv_rhs => rw [← List.take_append_drop (m - n) (s.drop n)]
  congr 1
  · rw [List.drop_take]
  · rw [List.drop_drop]
    congr 1
    omega

theorem drop_min (s : Str) (n : Nat) : s.drop (min n s.length) = s.drop n := by
  rcases le_total n s.length with h | h
  · rw [min_eq_left h]
  · rw [min_eq_right h, List.drop_length, List.drop_eq_nil_of_le h]

theorem buildParts_join (s : Str) : ∀ (ts : List Int) (n : Nat),
    (∀ t ∈ ts, 0 ≤ t) → List.Chain' (· ≤ ·) ts →
    (∀ t ∈ ts.head?, n ≤ cutPoint s t) →
    strConcat (buildParts s ts (n : Int)) = s.drop n
  | [], n => by
    intro _ _ _
    simp only [buildParts, strConcat, List.append_nil, pySliceFrom]
    have h1 : ¬((n : Int) < 0) := by omega
    simp only [clampIdx, if_neg h1, Int.toNat_natCast]
    exact drop_min s n
  | pos :: rest, n => by
    intro h0 hch hhd
    have hpos0 : 0 ≤ pos := h0 pos (List.mem_cons_self _ _)
    have hnc : n ≤ cutPoint s pos := hhd pos rfl
    have hcle := cutPoint_le s pos
    simp only [buildParts, strConcat]
    have hbridge : (if pyRfindEnd s turnSep pos = -1 then (0 : Int)
        else pyRfindEnd s turnSep pos) = ((cutPoint s pos : Nat) : Int) := by
      unfold cutPoint
      rcases pyRfindEnd_cases s turnSep pos with hL | ⟨hL0, _, _⟩
      · simp [hL]
      · have hne : pyRfindEnd s turnSep pos ≠ -1 := by omega
        simp only [hne, if_false]
        omega
    rw [hbridge]
    have hslice : pySlice s (n : Int) ((cutPoint s pos : Nat) : Int) =
        (s.take (cutPoint s pos)).drop n := by
      have h1 : ¬((n : Int) < 0) := by omega
      have h2 : ¬(((cutPoint s pos : Nat) : Int) < 0) := by omega
      have hnl : n ≤ s.length := le_trans hnc hcle
      simp only [pySlice, clampIdx, if_neg h1, if_neg h2, Int.toNat_natCast,
        min_eq_left hcle, min_eq_left hnl]
    rw [hslice]
    have hrec := buildParts_join s rest (cutPoint s pos)
      (fun t ht => h0 t (List.mem_cons_of_mem _ ht))
      (List.chain'_cons'.mp hch).2
      (by
        intro t' ht'
        have hrel := (List.chain'_cons'.mp hch).1 t' ht'
        have ht'mem := List.mem_of_mem_head? ht'
        exact cutPoint_mono s hpos0 hrel)
    rw [hrec]
    exact take_drop_append s hnc

/-- C1: the concatenation of the pieces the Segmenter cuts (before the
whitespace-only filter) reconstructs the document exactly, and a document
with no detected transition yields exactly one Segment equal to the whole
document. The unfiltered partition is lossless; the filter at line 163 is
the only lossy step. -/
theorem claim_C1_amended (content : Str) :
    strConcat (rawSegments content) = content ∧
      (detect_topic_transitions content = [] →
        split_content_by_topics content = [content]) := by
  constructor
  · unfold rawSegments
    cases hE : (detect_topic_transitions content).isEmpty
    · simp only [hE, if_false]
      have hd := detect_sorted content
      have h := buildParts_join content (detect_topic_transitions content) 0
        hd.1 (List.Chain'.imp (fun a b hab => le_of_lt hab) hd.2)
        (fun t _ => Nat.zero_le _)
      simpa using h
    · simp only [hE, if_true, strConcat, List.append_nil]
  · intro hnil
    unfold split_content_by_topics
    simp only [hnil, List.isEmpty_nil, if_true]

/-- C1 witness: a plain document with no transition phrase comes back as
one Segment, and the unfiltered partition concatenates to the document. -/
theorem claim_C1_amended_witness :
    strConcat (rawSegments plainDoc) = plainDoc ∧
      split_content_by_topics plainDoc = [plainDoc] :=
  ⟨(claim_C1_amended plainDoc).1, (claim_C1_amended plainDoc).2 (by decide)⟩

/-- C1 counterexample: a document whose leading piece is whitespace-only
loses that piece to the filter, so the concatenation of the produced
Segments is not the original document. -/
theorem claim_C1_counterexample :
    strConcat (split_content_by_topics wsDoc) ≠ wsDoc := by
  decide
